import Mathlib

set_option maxHeartbeats 1000000
set_option maxRecDepth 8000

/-!
# Verification of the JSON ⇄ typed-column cast engine

This development gives a shallow embedding of the bidirectional cast engine
between typed column batches and JSON text described by the repository's
specification, and proves (or refutes) the frozen behavioural claims about it
against the behaviour pinned down by
`velox/functions/prestosql/tests/JsonCastTest.cpp`.

The engine itself (the `JsonCastOperator` behind `JsonType`) is not part of
the source tree here — only its test surface is — so the operational
definitions below are modelled from the specification and cross-checked
against every concrete expectation of the test file.  Machine floating-point
values are represented by their shortest round-tripping decimal form
(sign × significand × 10^exponent), which is exactly the granularity at which
the formatter and the tests speak about them.
-/

namespace JsonCast

/-! ## Decimal digits -/

/-- The decimal digit character for `d < 10`. -/
def digitChar (d : Nat) : Char :=
  Char.ofNat (48 + d)

/-- Fuel-indexed digit renderer (one step per division by ten, so any fuel
above the rendered number is enough). -/
def natDecDigitsF : Nat → Nat → List Char
  | 0, _ => []
  | fuel + 1, n =>
    if n < 10 then [digitChar n]
    else natDecDigitsF fuel (n / 10) ++ [digitChar (n % 10)]

/-- Decimal digit characters of a natural number, most significant first.
`0` renders as `"0"`. -/
def natDecDigits (n : Nat) : List Char :=
  natDecDigitsF (n + 1) n

/-- Number of decimal digits of `n` (`1` for `0`). -/
def digitsLen (n : Nat) : Nat :=
  (natDecDigits n).length

theorem natDecDigitsF_irrel : ∀ f1 : Nat, ∀ n f2 : Nat, n < f1 → n < f2 →
    natDecDigitsF f1 n = natDecDigitsF f2 n := by
  intro f1
  induction f1 with
  | zero => intro n f2 h1 h2; omega
  | succ g1 ih =>
    intro n f2 h1 h2
    cases f2 with
    | zero => omega
    | succ g2 =>
      rw [natDecDigitsF, natDecDigitsF]
      by_cases h : n < 10
      · rw [if_pos h, if_pos h]
      · rw [if_neg h, if_neg h]
        have hd : n / 10 < n := Nat.div_lt_self (by omega) (by norm_num)
        rw [ih (n / 10) g2 (by omega) (by omega)]

/-- One-step unfolding of `natDecDigits`, recovering the natural recursion
on `n / 10`. -/
theorem natDecDigits_eq (n : Nat) :
    natDecDigits n =
      if n < 10 then [digitChar n]
      else natDecDigits (n / 10) ++ [digitChar (n % 10)] := by
  show natDecDigitsF (n + 1) n = _
  rw [natDecDigitsF]
  by_cases h : n < 10
  · rw [if_pos h, if_pos h]
  · rw [if_neg h, if_neg h]
    have hd : n / 10 < n := Nat.div_lt_self (by omega) (by norm_num)
    rw [natDecDigitsF_irrel n (n / 10) (n / 10 + 1) (by omega) (by omega)]
    rfl

theorem natDecDigits_ne_nil (n : Nat) : natDecDigits n ≠ [] := by
  rw [natDecDigits_eq]
  split <;> simp

theorem digitsLen_pos (n : Nat) : 0 < digitsLen n := by
  have := natDecDigits_ne_nil n
  unfold digitsLen
  cases h : natDecDigits n with
  | nil => exact absurd h this
  | cons a l => simp

/-- Every character produced by `natDecDigits` is a decimal digit. -/
theorem natDecDigits_isDigit (n : Nat) : ∀ c ∈ natDecDigits n, c.isDigit := by
  induction n using Nat.strong_induction_on with
  | _ n ih =>
    rw [natDecDigits_eq]
    split
    · rename_i h
      intro c hc
      simp at hc
      subst hc
      unfold digitChar
      interval_cases n <;> decide
    · rename_i h
      intro c hc
      simp at hc
      rcases hc with hc | hc
      · exact ih (n / 10) (Nat.div_lt_self (by omega) (by norm_num)) c hc
      · subst hc
        unfold digitChar
        have : n % 10 < 10 := Nat.mod_lt _ (by norm_num)
        interval_cases h : (n % 10) <;> decide

/-- Accumulating decimal-digit scanner: consumes the longest digit prefix,
returning the accumulated value, the number of digits consumed, and the rest. -/
def parseDigits (acc cnt : Nat) : List Char → Nat × Nat × List Char
  | [] => (acc, cnt, [])
  | c :: cs =>
    if c.isDigit then parseDigits (acc * 10 + (c.toNat - 48)) (cnt + 1) cs
    else (acc, cnt, c :: cs)

theorem digitChar_isDigit {d : Nat} (h : d < 10) : (digitChar d).isDigit := by
  unfold digitChar
  interval_cases d <;> decide

theorem digitChar_toNat {d : Nat} (h : d < 10) : (digitChar d).toNat = 48 + d := by
  unfold digitChar
  interval_cases d <;> decide

/-- Scanning the rendered digits of `n` accumulates exactly `n`. -/
theorem parseDigits_natDecDigits (n : Nat) :
    ∀ acc cnt rest, parseDigits acc cnt (natDecDigits n ++ rest) =
      parseDigits (acc * 10 ^ digitsLen n + n) (cnt + digitsLen n) rest := by
  induction n using Nat.strong_induction_on with
  | _ n ih =>
    intro acc cnt rest
    by_cases h : n < 10
    · rw [natDecDigits_eq, if_pos h]
      show parseDigits acc cnt (digitChar n :: rest) = _
      rw [parseDigits, if_pos (digitChar_isDigit h), digitChar_toNat h]
      have hlen : digitsLen n = 1 := by
        unfold digitsLen
        rw [natDecDigits_eq, if_pos h]
        rfl
      rw [hlen]
      congr 1
      omega
    · rw [natDecDigits_eq, if_neg h, List.append_assoc]
      have hd : n / 10 < n := Nat.div_lt_self (by omega) (by norm_num)
      rw [ih (n / 10) hd acc cnt _]
      show parseDigits _ _ (digitChar (n % 10) :: rest) = _
      have hm : n % 10 < 10 := Nat.mod_lt _ (by norm_num)
      rw [parseDigits, if_pos (digitChar_isDigit hm), digitChar_toNat hm]
      have hlen : digitsLen n = digitsLen (n / 10) + 1 := by
        unfold digitsLen
        conv_lhs => rw [natDecDigits_eq, if_neg h]
        simp
      rw [hlen]
      congr 1
      rw [pow_succ]
      generalize (10:Nat) ^ digitsLen (n / 10) = k
      have hx : (acc * k + n / 10) * 10 = acc * (k * 10) + n / 10 * 10 := by ring
      omega

/-- Terminal form: digits followed by a non-digit boundary. -/
theorem parseDigits_complete (n : Nat) (rest : List Char)
    (hrest : ∀ c l, rest = c :: l → ¬ c.isDigit) :
    parseDigits 0 0 (natDecDigits n ++ rest) = (n, digitsLen n, rest) := by
  rw [parseDigits_natDecDigits]
  cases rest with
  | nil => simp [parseDigits]
  | cons c l =>
    rw [parseDigits, if_neg (hrest c l rfl)]
    simp

/-! ## Hexadecimal digits and JSON string escaping

The scalar formatter quotes strings with standard JSON escapes: control
characters below 0x20 are escaped as `\u00XX` except the named escapes
`\b \t \n \f \r`, and non-ASCII characters are `\u`-encoded, using a
surrogate pair when outside the basic multilingual plane. -/

/-- Lowercase hexadecimal digit character for `d < 16`. -/
def hexDigitChar : Nat → Char
  | 0 => '0' | 1 => '1' | 2 => '2' | 3 => '3' | 4 => '4'
  | 5 => '5' | 6 => '6' | 7 => '7' | 8 => '8' | 9 => '9'
  | 10 => 'a' | 11 => 'b' | 12 => 'c' | 13 => 'd' | 14 => 'e'
  | _ => 'f'

/-- Value of a hexadecimal digit character (either case), or `none`. -/
def hexVal (c : Char) : Option Nat :=
  if 48 ≤ c.toNat ∧ c.toNat ≤ 57 then some (c.toNat - 48)
  else if 97 ≤ c.toNat ∧ c.toNat ≤ 102 then some (c.toNat - 87)
  else if 65 ≤ c.toNat ∧ c.toNat ≤ 70 then some (c.toNat - 55)
  else none

/-- Four lowercase hex digits of `n < 0x10000`, most significant first. -/
def hex4 (n : Nat) : List Char :=
  [hexDigitChar (n / 4096 % 16), hexDigitChar (n / 256 % 16),
   hexDigitChar (n / 16 % 16), hexDigitChar (n % 16)]

theorem hexVal_hexDigitChar : ∀ d < 16, hexVal (hexDigitChar d) = some d := by
  decide

/-- JSON escape sequence of a single character. -/
def escChar (c : Char) : List Char :=
  if c = '"' then ['\\', '"']
  else if c = '\\' then ['\\', '\\']
  else if c.toNat = 8 then ['\\', 'b']
  else if c.toNat = 9 then ['\\', 't']
  else if c.toNat = 10 then ['\\', 'n']
  else if c.toNat = 12 then ['\\', 'f']
  else if c.toNat = 13 then ['\\', 'r']
  else if c.toNat < 32 then '\\' :: 'u' :: hex4 c.toNat
  else if c.toNat < 128 then [c]
  else if c.toNat < 65536 then '\\' :: 'u' :: hex4 c.toNat
  else
    '\\' :: 'u' :: hex4 (55296 + (c.toNat - 65536) / 1024) ++
      ('\\' :: 'u' :: hex4 (56320 + (c.toNat - 65536) % 1024))

/-- JSON escaping of a character sequence (the body of a quoted string). -/
def escapeChars : List Char → List Char
  | [] => []
  | c :: cs => escChar c ++ escapeChars cs

/-- Decoded character of a single-letter escape `\X`, or `none`. -/
def escDecode (e : Char) : Option Char :=
  if e = '"' then some '"'
  else if e = '\\' then some '\\'
  else if e = '/' then some '/'
  else if e = 'b' then some (Char.ofNat 8)
  else if e = 't' then some (Char.ofNat 9)
  else if e = 'n' then some (Char.ofNat 10)
  else if e = 'f' then some (Char.ofNat 12)
  else if e = 'r' then some (Char.ofNat 13)
  else none

/-- Reads exactly four hexadecimal digits, returning their value and the rest. -/
def readHex4 : List Char → Option (Nat × List Char)
  | a :: b :: c :: d :: rest =>
    match hexVal a, hexVal b, hexVal c, hexVal d with
    | some va, some vb, some vc, some vd =>
      some (va * 4096 + vb * 256 + vc * 16 + vd, rest)
    | _, _, _, _ => none
  | _ => none

/-- Expects a literal `\u` prefix, returning the remainder. -/
def expectBackslashU : List Char → Option (List Char)
  | s1 :: s2 :: rest => if s1 = '\\' ∧ s2 = 'u' then some rest else none
  | _ => none

/-- Decodes the contents of a `\u` escape (starting right after the `u`):
either a single BMP scalar or a surrogate pair spanning a second `\u` escape.
Returns the decoded character and the number of characters consumed. -/
def decodeUEscape (l : List Char) : Option (Char × Nat) :=
  (readHex4 l).bind fun p =>
    if 55296 ≤ p.1 ∧ p.1 < 56320 then
      (expectBackslashU p.2).bind fun rest4 =>
        (readHex4 rest4).bind fun q =>
          if 56320 ≤ q.1 ∧ q.1 < 57344 then
            some (Char.ofNat (65536 + (p.1 - 55296) * 1024 + (q.1 - 56320)), 10)
          else none
    else if 56320 ≤ p.1 ∧ p.1 < 57344 then none
    else some (Char.ofNat p.1, 4)

/-- Fuel-indexed scanner for the body of a JSON string literal (each step
consumes at least one character, so any fuel above the input length is
enough). -/
def parseStrBodyF : Nat → List Char → Option (List Char × List Char)
  | 0, _ => none
  | fuel + 1, l =>
    match l with
    | [] => none
    | c :: rest =>
      if c = '"' then some ([], rest)
      else if c = '\\' then
        match rest with
        | [] => none
        | e :: rest2 =>
          if e = 'u' then
            (decodeUEscape rest2).bind fun ck =>
              (parseStrBodyF fuel (rest2.drop ck.2)).map fun p =>
                (ck.1 :: p.1, p.2)
          else
            (escDecode e).bind fun ec =>
              (parseStrBodyF fuel rest2).map fun p => (ec :: p.1, p.2)
      else (parseStrBodyF fuel rest).map (fun p => (c :: p.1, p.2))

/-- Scanner for the body of a JSON string literal, consuming up to and
including the closing quote; returns the unescaped content and the rest of
the input.  Surrogate pairs written as two `\u` escapes are recombined. -/
def parseStrBody (l : List Char) : Option (List Char × List Char) :=
  parseStrBodyF (l.length + 1) l

/-- Unicode validity of a character scalar value, in `Nat` form. -/
theorem char_toNat_valid (c : Char) :
    c.toNat < 55296 ∨ (57343 < c.toNat ∧ c.toNat < 1114112) := by
  have h := c.valid
  rcases h with h | ⟨h1, h2⟩
  · exact Or.inl h
  · exact Or.inr ⟨h1, h2⟩

/-- `readHex4` inverts `hex4` on values below `0x10000`. -/
theorem readHex4_hex4 (n : Nat) (hn : n < 65536) (T : List Char) :
    readHex4 (hex4 n ++ T) = some (n, T) := by
  have e1 : hexVal (hexDigitChar (n / 4096 % 16)) = some (n / 4096 % 16) :=
    hexVal_hexDigitChar _ (Nat.mod_lt _ (by norm_num))
  have e2 : hexVal (hexDigitChar (n / 256 % 16)) = some (n / 256 % 16) :=
    hexVal_hexDigitChar _ (Nat.mod_lt _ (by norm_num))
  have e3 : hexVal (hexDigitChar (n / 16 % 16)) = some (n / 16 % 16) :=
    hexVal_hexDigitChar _ (Nat.mod_lt _ (by norm_num))
  have e4 : hexVal (hexDigitChar (n % 16)) = some (n % 16) :=
    hexVal_hexDigitChar _ (Nat.mod_lt _ (by norm_num))
  have hre : n / 4096 % 16 * 4096 + n / 256 % 16 * 256 + n / 16 % 16 * 16 +
      n % 16 = n := by omega
  simp only [hex4, List.cons_append, List.nil_append]
  rw [readHex4.eq_def]
  dsimp only
  rw [e1, e2, e3, e4]
  dsimp only
  rw [hre]

/-- Evaluation of `decodeUEscape` on an encoded BMP scalar. -/
theorem decodeUEscape_hex4 (n : Nat) (hn : n < 65536)
    (hv : n < 55296 ∨ 57343 < n) (T : List Char) :
    decodeUEscape (hex4 n ++ T) = some (Char.ofNat n, 4) := by
  rw [decodeUEscape, readHex4_hex4 n hn T, Option.some_bind]
  dsimp only
  rw [if_neg (by omega), if_neg (by omega)]

/-- Evaluation of `decodeUEscape` on an encoded surrogate pair. -/
theorem decodeUEscape_surrogate (n : Nat) (h1 : 65536 ≤ n) (h2 : n < 1114112)
    (T : List Char) :
    decodeUEscape (hex4 (55296 + (n - 65536) / 1024) ++
        ('\\' :: 'u' :: (hex4 (56320 + (n - 65536) % 1024) ++ T))) =
      some (Char.ofNat n, 10) := by
  set hi := 55296 + (n - 65536) / 1024 with hhi
  set lo := 56320 + (n - 65536) % 1024 with hlo
  have hhi16 : hi < 65536 := by
    have : (n - 65536) / 1024 < 1024 := by omega
    omega
  have hlo16 : lo < 65536 := by
    have : (n - 65536) % 1024 < 1024 := Nat.mod_lt _ (by norm_num)
    omega
  rw [decodeUEscape, readHex4_hex4 hi hhi16 _, Option.some_bind]
  dsimp only
  rw [if_pos (by omega)]
  rw [show expectBackslashU ('\\' :: 'u' :: (hex4 lo ++ T)) =
      some (hex4 lo ++ T) by rw [expectBackslashU]; rw [if_pos ⟨rfl, rfl⟩]]
  rw [Option.some_bind, readHex4_hex4 lo hlo16 T, Option.some_bind]
  dsimp only
  rw [if_pos (by omega)]
  have hchar : 65536 + (hi - 55296) * 1024 + (lo - 56320) = n := by omega
  rw [hchar]

/-- The fuel of `parseStrBodyF` is irrelevant above the input length. -/
theorem parseStrBodyF_irrel : ∀ f1 : Nat, ∀ l : List Char, ∀ f2 : Nat,
    l.length < f1 → l.length < f2 →
    parseStrBodyF f1 l = parseStrBodyF f2 l := by
  intro f1
  induction f1 with
  | zero =>
    intro l f2 h1 _
    exact absurd h1 (by omega)
  | succ g1 ih =>
    intro l f2 h1 h2
    cases f2 with
    | zero => exact absurd h2 (by omega)
    | succ g2 =>
      cases l with
      | nil => rfl
      | cons c rest =>
        simp only [List.length_cons] at h1 h2
        rw [parseStrBodyF.eq_def]
        conv_rhs => rw [parseStrBodyF.eq_def]
        dsimp only
        by_cases hq : c = '"'
        · simp only [if_pos hq]
        · simp only [if_neg hq]
          by_cases hbs : c = '\\'
          · simp only [if_pos hbs]
            cases rest with
            | nil => rfl
            | cons e rest2 =>
              simp only [List.length_cons] at h1 h2
              by_cases hu : e = 'u'
              · simp only [if_pos hu]
                cases hdec : decodeUEscape rest2 with
                | none => rfl
                | some ck =>
                  simp only [hdec, Option.some_bind]
                  rw [ih (rest2.drop ck.2) g2
                    (by simp only [List.length_drop]; omega)
                    (by simp only [List.length_drop]; omega)]
              · simp only [if_neg hu]
                cases hesc : escDecode e with
                | none => rfl
                | some ec =>
                  simp only [hesc, Option.some_bind]
                  rw [ih rest2 g2 (by omega) (by omega)]
          · simp only [if_neg hbs]
            rw [ih rest g2 (by omega) (by omega)]

/-- One-step unfolding of `parseStrBody`. -/
theorem parseStrBody_eq (l : List Char) :
    parseStrBody l =
      (match l with
        | [] => none
        | c :: rest =>
          if c = '"' then some ([], rest)
          else if c = '\\' then
            match rest with
            | [] => none
            | e :: rest2 =>
              if e = 'u' then
                (decodeUEscape rest2).bind fun ck =>
                  (parseStrBody (rest2.drop ck.2)).map fun p =>
                    (ck.1 :: p.1, p.2)
              else
                (escDecode e).bind fun ec =>
                  (parseStrBody rest2).map fun p => (ec :: p.1, p.2)
          else (parseStrBody rest).map (fun p => (c :: p.1, p.2))) := by
  cases l with
  | nil => rfl
  | cons c rest =>
    rw [show parseStrBody (c :: rest) =
      parseStrBodyF (rest.length + 1 + 1) (c :: rest) from rfl]
    rw [parseStrBodyF.eq_def]
    dsimp only
    by_cases hq : c = '"'
    · simp only [if_pos hq]
    · simp only [if_neg hq]
      by_cases hbs : c = '\\'
      · simp only [if_pos hbs]
        cases rest with
        | nil => rfl
        | cons e rest2 =>
          simp only [List.length_cons]
          by_cases hu : e = 'u'
          · simp only [if_pos hu]
            cases hdec : decodeUEscape rest2 with
            | none => rfl
            | some ck =>
              simp only [hdec, Option.some_bind]
              rw [parseStrBodyF_irrel (rest2.length + 1 + 1)
                (rest2.drop ck.2) ((rest2.drop ck.2).length + 1)
                (by simp only [List.length_drop]; omega) (by omega)]
              rfl
          · simp only [if_neg hu]
            cases hesc : escDecode e with
            | none => rfl
            | some ec =>
              simp only [hesc, Option.some_bind]
              rw [parseStrBodyF_irrel (rest2.length + 1 + 1) rest2
                (rest2.length + 1) (by omega) (by omega)]
              rfl
      · simp only [if_neg hbs]
        rw [show parseStrBodyF (rest.length + 1) rest = parseStrBody rest
          from rfl]

/-- Decoding a single non-surrogate `\uXXXX` escape inside a string body. -/
theorem parseStrBody_hex (n : Nat) (hn : n < 65536) (hv : n < 55296 ∨ 57343 < n)
    (T : List Char) :
    parseStrBody ('\\' :: 'u' :: (hex4 n ++ T)) =
      (parseStrBody T).map (fun p => (Char.ofNat n :: p.1, p.2)) := by
  show (decodeUEscape (hex4 n ++ T)).bind (fun ck =>
      (parseStrBodyF ((hex4 n ++ T).length + 1 + 1)
        ((hex4 n ++ T).drop ck.2)).map fun p => (ck.1 :: p.1, p.2)) = _
  rw [decodeUEscape_hex4 n hn hv T]
  simp only [Option.some_bind]
  have hdrop : (hex4 n ++ T).drop 4 = T := by simp [hex4]
  rw [hdrop]
  rw [parseStrBodyF_irrel ((hex4 n ++ T).length + 1 + 1) T (T.length + 1)
    (by simp [hex4]; omega) (by omega)]
  rfl

/-- Decoding a surrogate-pair escape `\uHHHH\uLLLL` inside a string body. -/
theorem parseStrBody_surrogate (n : Nat) (h1 : 65536 ≤ n) (h2 : n < 1114112)
    (T : List Char) :
    parseStrBody ('\\' :: 'u' :: (hex4 (55296 + (n - 65536) / 1024) ++
        ('\\' :: 'u' :: (hex4 (56320 + (n - 65536) % 1024) ++ T)))) =
      (parseStrBody T).map (fun p => (Char.ofNat n :: p.1, p.2)) := by
  show (decodeUEscape (hex4 (55296 + (n - 65536) / 1024) ++
      ('\\' :: 'u' :: (hex4 (56320 + (n - 65536) % 1024) ++ T)))).bind
    (fun ck =>
      (parseStrBodyF ((hex4 (55296 + (n - 65536) / 1024) ++
          ('\\' :: 'u' :: (hex4 (56320 + (n - 65536) % 1024) ++ T))).length
          + 1 + 1)
        ((hex4 (55296 + (n - 65536) / 1024) ++
          ('\\' :: 'u' :: (hex4 (56320 + (n - 65536) % 1024) ++ T))).drop
          ck.2)).map fun p => (ck.1 :: p.1, p.2)) = _
  rw [decodeUEscape_surrogate n h1 h2 T]
  simp only [Option.some_bind]
  have hdrop : (hex4 (55296 + (n - 65536) / 1024) ++
      ('\\' :: 'u' :: (hex4 (56320 + (n - 65536) % 1024) ++ T))).drop 10 =
      T := by
    simp [hex4]
  rw [hdrop]
  rw [parseStrBodyF_irrel ((hex4 (55296 + (n - 65536) / 1024) ++
      ('\\' :: 'u' :: (hex4 (56320 + (n - 65536) % 1024) ++ T))).length
      + 1 + 1) T (T.length + 1) (by simp [hex4]; omega) (by omega)]
  rfl

/-- Unescaping is a left inverse of escaping: scanning the escaped body of a
string followed by a closing quote recovers the original characters. -/
theorem parseStrBody_escapeChars (cs : List Char) : ∀ rest : List Char,
    parseStrBody (escapeChars cs ++ '"' :: rest) = some (cs, rest) := by
  induction cs with
  | nil =>
    intro rest
    rw [escapeChars, List.nil_append, parseStrBody_eq]
    dsimp only
    rw [if_pos rfl]
  | cons c cs ih =>
    intro rest
    rw [escapeChars, List.append_assoc]
    have hT := ih rest
    unfold escChar
    by_cases hq : c = '"'
    · rw [if_pos hq, List.cons_append, List.cons_append, List.nil_append]
      rw [parseStrBody_eq]
      dsimp only
      rw [if_neg (by decide), if_pos rfl]
      rw [if_neg (by decide)]
      rw [show escDecode '"' = some '"' from rfl, Option.some_bind]
      rw [hT, hq]
      rfl
    rw [if_neg hq]
    by_cases hbs : c = '\\'
    · rw [if_pos hbs, List.cons_append, List.cons_append, List.nil_append]
      rw [parseStrBody_eq]
      dsimp only
      rw [if_neg (by decide), if_pos rfl]
      rw [if_neg (by decide)]
      rw [show escDecode '\\' = some '\\' from rfl, Option.some_bind]
      rw [hT, hbs]
      rfl
    rw [if_neg hbs]
    by_cases h8 : c.toNat = 8
    · rw [if_pos h8, List.cons_append, List.cons_append, List.nil_append]
      rw [parseStrBody_eq]
      dsimp only
      rw [if_neg (by decide), if_pos rfl]
      rw [if_neg (by decide)]
      rw [show escDecode 'b' = some (Char.ofNat 8) from rfl, Option.some_bind]
      rw [hT]
      have : Char.ofNat 8 = c := by rw [← h8, Char.ofNat_toNat]
      rw [this]
      rfl
    rw [if_neg h8]
    by_cases h9 : c.toNat = 9
    · rw [if_pos h9, List.cons_append, List.cons_append, List.nil_append]
      rw [parseStrBody_eq]
      dsimp only
      rw [if_neg (by decide), if_pos rfl]
      rw [if_neg (by decide)]
      rw [show escDecode 't' = some (Char.ofNat 9) from rfl, Option.some_bind]
      rw [hT]
      have : Char.ofNat 9 = c := by rw [← h9, Char.ofNat_toNat]
      rw [this]
      rfl
    rw [if_neg h9]
    by_cases h10 : c.toNat = 10
    · rw [if_pos h10, List.cons_append, List.cons_append, List.nil_append]
      rw [parseStrBody_eq]
      dsimp only
      rw [if_neg (by decide), if_pos rfl]
      rw [if_neg (by decide)]
      rw [show escDecode 'n' = some (Char.ofNat 10) from rfl, Option.some_bind]
      rw [hT]
      have : Char.ofNat 10 = c := by rw [← h10, Char.ofNat_toNat]
      rw [this]
      rfl
    rw [if_neg h10]
    by_cases h12 : c.toNat = 12
    · rw [if_pos h12, List.cons_append, List.cons_append, List.nil_append]
      rw [parseStrBody_eq]
      dsimp only
      rw [if_neg (by decide), if_pos rfl]
      rw [if_neg (by decide)]
      rw [show escDecode 'f' = some (Char.ofNat 12) from rfl, Option.some_bind]
      rw [hT]
      have : Char.ofNat 12 = c := by rw [← h12, Char.ofNat_toNat]
      rw [this]
      rfl
    rw [if_neg h12]
    by_cases h13 : c.toNat = 13
    · rw [if_pos h13, List.cons_append, List.cons_append, List.nil_append]
      rw [parseStrBody_eq]
      dsimp only
      rw [if_neg (by decide), if_pos rfl]
      rw [if_neg (by decide)]
      rw [show escDecode 'r' = some (Char.ofNat 13) from rfl, Option.some_bind]
      rw [hT]
      have : Char.ofNat 13 = c := by rw [← h13, Char.ofNat_toNat]
      rw [this]
      rfl
    rw [if_neg h13]
    by_cases hc32 : c.toNat < 32
    · rw [if_pos hc32, List.cons_append, List.cons_append]
      rw [parseStrBody_hex c.toNat (by omega) (by omega) _]
      rw [hT, Char.ofNat_toNat]
      rfl
    rw [if_neg hc32]
    by_cases hc128 : c.toNat < 128
    · rw [if_pos hc128, List.cons_append, List.nil_append]
      rw [parseStrBody_eq]
      dsimp only
      rw [if_neg hq, if_neg hbs]
      rw [hT]
      rfl
    rw [if_neg hc128]
    by_cases hbmp : c.toNat < 65536
    · rw [if_pos hbmp, List.cons_append, List.cons_append]
      have hv : c.toNat < 55296 ∨ 57343 < c.toNat := by
        rcases char_toNat_valid c with h | h
        · exact Or.inl h
        · exact Or.inr h.1
      rw [parseStrBody_hex c.toNat hbmp hv _]
      rw [hT, Char.ofNat_toNat]
      rfl
    rw [if_neg hbmp]
    have hval := char_toNat_valid c
    simp only [List.cons_append, List.append_assoc]
    rw [parseStrBody_surrogate c.toNat (by omega) (by omega) _]
    rw [hT, Char.ofNat_toNat]
    rfl

/-! ## JSON values and the document parser

The reader consumes JSON text.  A parsed number records its sign, decimal
significand `m`, decimal exponent `e` (value `± m·10^e`), and whether it was
written with a fraction or exponent part (`dbl`), mirroring the parser's
distinction between 64-bit integer literals and floating literals. -/

structure JNum where
  neg : Bool
  m : Nat
  e : Int
  dbl : Bool
deriving DecidableEq

inductive JsonValue where
  | null
  | bool (b : Bool)
  | num (n : JNum)
  | str (s : List Char)
  | arr (xs : List JsonValue)
  | obj (fields : List (List Char × JsonValue))

/-- The error taxonomy of the cast engine. -/
inductive JsonErr where
  | NoJsonFound
  | MalformedDocument
  | TypeMismatch
  | NumericOverflow
  | NumberParseError
  | NullMapKey
  | UnsupportedKeyType
  | UnsupportedCastType
deriving DecidableEq

def isWsChar (c : Char) : Bool :=
  c.toNat == 32 || c.toNat == 9 || c.toNat == 10 || c.toNat == 13

def skipWs : List Char → List Char
  | [] => []
  | c :: cs => if isWsChar c then skipWs cs else c :: cs

def isDigitHead : List Char → Bool
  | c :: _ => c.isDigit
  | [] => false

/-- Parses an optional exponent suffix onto an already-scanned significand. -/
def parseExpPart (m : Nat) (e : Int) (dbl : Bool) (l : List Char) :
    Option ((Nat × Int × Bool) × List Char) :=
  match l with
  | c :: l5 =>
    if c = 'e' ∨ c = 'E' then
      match l5 with
      | s :: l6 =>
        if s = '+' then
          if isDigitHead l6 then
            let r := parseDigits 0 0 l6
            some ((m, e + r.1, true), r.2.2)
          else none
        else if s = '-' then
          if isDigitHead l6 then
            let r := parseDigits 0 0 l6
            some ((m, e - r.1, true), r.2.2)
          else none
        else if s.isDigit then
          let r := parseDigits 0 0 l5
          some ((m, e + r.1, true), r.2.2)
        else none
      | [] => none
    else some ((m, e, dbl), l)
  | [] => some ((m, e, dbl), [])

/-- Parses the digits of a JSON number after an optional leading minus:
integer part, optional fraction, optional exponent. -/
def parseNumAfterSign (l1 : List Char) : Option ((Nat × Int × Bool) × List Char) :=
  if isDigitHead l1 then
    let r1 := parseDigits 0 0 l1
    match r1.2.2 with
    | c :: l3 =>
      if c = '.' then
        if isDigitHead l3 then
          let r2 := parseDigits 0 0 l3
          parseExpPart (r1.1 * 10 ^ r2.2.1 + r2.1) (-(r2.2.1 : Int)) true r2.2.2
        else none
      else parseExpPart r1.1 0 false (c :: l3)
    | [] => parseExpPart r1.1 0 false []
  else none

/-- Parses a JSON number literal. -/
def parseNumber (l : List Char) : Option (JNum × List Char) :=
  match l with
  | c :: rest =>
    if c = '-' then
      (parseNumAfterSign rest).map fun p =>
        (⟨true, p.1.1, p.1.2.1, p.1.2.2⟩, p.2)
    else
      (parseNumAfterSign l).map fun p =>
        (⟨false, p.1.1, p.1.2.1, p.1.2.2⟩, p.2)
  | [] => none

mutual

/-- Fuel-indexed recursive-descent parser for a single JSON value. -/
def parseValue : Nat → List Char → Option (JsonValue × List Char)
  | 0, _ => none
  | fuel+1, l =>
    match l with
    | [] => none
    | c :: rest =>
      if c = 'n' then
        match rest with
        | c1 :: c2 :: c3 :: rest2 =>
          if c1 = 'u' ∧ c2 = 'l' ∧ c3 = 'l' then some (.null, rest2) else none
        | _ => none
      else if c = 't' then
        match rest with
        | c1 :: c2 :: c3 :: rest2 =>
          if c1 = 'r' ∧ c2 = 'u' ∧ c3 = 'e' then some (.bool true, rest2)
          else none
        | _ => none
      else if c = 'f' then
        match rest with
        | c1 :: c2 :: c3 :: c4 :: rest2 =>
          if c1 = 'a' ∧ c2 = 'l' ∧ c3 = 's' ∧ c4 = 'e' then
            some (.bool false, rest2)
          else none
        | _ => none
      else if c = '"' then
        (parseStrBody rest).map fun p => (.str p.1, p.2)
      else if c = '[' then
        match skipWs rest with
        | c2 :: rest2 =>
          if c2 = ']' then some (.arr [], rest2)
          else (parseItems fuel (c2 :: rest2)).map fun p => (.arr p.1, p.2)
        | [] => none
      else if c = '{' then
        match skipWs rest with
        | c2 :: rest2 =>
          if c2 = '}' then some (.obj [], rest2)
          else (parseMembers fuel (c2 :: rest2)).map fun p => (.obj p.1, p.2)
        | [] => none
      else
        (parseNumber l).map fun p => (.num p.1, p.2)

/-- Parses the comma-separated items of a JSON array up to `]`. -/
def parseItems : Nat → List Char → Option (List JsonValue × List Char)
  | 0, _ => none
  | fuel+1, l =>
    (parseValue fuel (skipWs l)).bind fun vr =>
      match skipWs vr.2 with
      | c :: r2 =>
        if c = ',' then
          (parseItems fuel r2).map fun p => (vr.1 :: p.1, p.2)
        else if c = ']' then some ([vr.1], r2)
        else none
      | [] => none

/-- Parses the comma-separated members of a JSON object up to `}`.
Object keys must be string literals by the JSON grammar. -/
def parseMembers : Nat → List Char →
    Option (List (List Char × JsonValue) × List Char)
  | 0, _ => none
  | fuel+1, l =>
    match skipWs l with
    | c :: r =>
      if c = '"' then
        (parseStrBody r).bind fun kr =>
          match skipWs kr.2 with
          | c2 :: r3 =>
            if c2 = ':' then
              (parseValue fuel (skipWs r3)).bind fun vr =>
                match skipWs vr.2 with
                | c3 :: r5 =>
                  if c3 = ',' then
                    (parseMembers fuel r5).map fun p =>
                      ((kr.1, vr.1) :: p.1, p.2)
                  else if c3 = '}' then some ([(kr.1, vr.1)], r5)
                  else none
                | [] => none
            else none
          | [] => none
      else none
    | [] => none

end

/-- Parses a whole JSON document: empty input is `NoJsonFound`; trailing
garbage after a complete value, or an unparsable value, is
`MalformedDocument`. -/
def parseJson (l : List Char) : Except JsonErr JsonValue :=
  match skipWs l with
  | [] => .error .NoJsonFound
  | l0 =>
    match parseValue (l0.length + 1) l0 with
    | some p => if skipWs p.2 = [] then .ok p.1 else .error .MalformedDocument
    | none => .error .MalformedDocument

/-! ## Floating-point values and the scalar formatter

Modelled from the spec: machine floating-point values are represented by the
shortest round-tripping decimal form the formatter works with: a sign, a
decimal significand `m` and a decimal exponent `e` (value `± m·10^e`,
canonical when `10 ∤ m`), plus signed infinities and NaNs.  `-0.0` is
`fin true 0 0`. -/

inductive FloatVal where
  | fin (neg : Bool) (m : Nat) (e : Int)
  | inf (neg : Bool)
  | nan (neg : Bool)
deriving DecidableEq

/-- Exponent digits of scientific notation (no plus sign on positives). -/
def expDigits (d : Int) : List Char :=
  if d < 0 then '-' :: natDecDigits (-d).toNat else natDecDigits d.toNat

/-- The decimal exponent of the value `m·10^e` (position of the leading digit
relative to the decimal point), driving the plain/scientific choice. -/
def decExp (m : Nat) (e : Int) : Int :=
  (digitsLen m : Int) + e - 1

/-- Formats the magnitude `m·10^e`: plain notation exactly when the decimal
exponent lies in `[-3, 7)`, otherwise scientific notation with one digit
before the point and an explicit exponent. -/
def formatFinMag (m : Nat) (e : Int) : List Char :=
  if m = 0 then ['0', '.', '0']
  else
    let ds := natDecDigits m
    if -3 ≤ decExp m e ∧ decExp m e < 7 then
      if 0 ≤ e then ds ++ List.replicate e.toNat '0' ++ ['.', '0']
      else
        let pos : Int := (ds.length : Int) + e
        if 0 < pos then ds.take pos.toNat ++ '.' :: ds.drop pos.toNat
        else '0' :: '.' :: (List.replicate (-pos).toNat '0' ++ ds)
    else
      match ds with
      | h :: t =>
        h :: '.' :: ((if t = [] then ['0'] else t) ++ 'E' :: expDigits (decExp m e))
      | [] => []

/-- The scalar formatter on floating-point values. -/
def formatFloat : FloatVal → List Char
  | .fin neg m e => (if neg then ['-'] else []) ++ formatFinMag m e
  | .inf neg =>
    (if neg then ['-'] else []) ++ ['I', 'n', 'f', 'i', 'n', 'i', 't', 'y']
  | .nan _ => ['N', 'a', 'N']

/-- Fuel-indexed trailing-zero stripper (one step per division by ten). -/
def stripTensF : Nat → Nat → Int → Nat × Int
  | 0, _, _ => (0, 0)
  | fuel + 1, m, e =>
    if m = 0 then (0, 0)
    else if m % 10 = 0 then stripTensF fuel (m / 10) (e + 1)
    else (m, e)

/-- Strips trailing decimal zeros from a significand, normalizing to the
canonical (shortest) decimal form; zero normalizes to `(0, 0)`. -/
def stripTens (m : Nat) (e : Int) : Nat × Int :=
  stripTensF (m + 1) m e

theorem stripTensF_irrel : ∀ f1 : Nat, ∀ m : Nat, ∀ e : Int, ∀ f2 : Nat,
    m < f1 → m < f2 → stripTensF f1 m e = stripTensF f2 m e := by
  intro f1
  induction f1 with
  | zero => intro m e f2 h1 h2; omega
  | succ g1 ih =>
    intro m e f2 h1 h2
    cases f2 with
    | zero => omega
    | succ g2 =>
      rw [stripTensF, stripTensF]
      by_cases h0 : m = 0
      · rw [if_pos h0, if_pos h0]
      · rw [if_neg h0, if_neg h0]
        by_cases h1' : m % 10 = 0
        · rw [if_pos h1', if_pos h1']
          have hd : m / 10 < m := Nat.div_lt_self (by omega) (by norm_num)
          rw [ih (m / 10) (e + 1) g2 (by omega) (by omega)]
        · rw [if_neg h1', if_neg h1']

/-- One-step unfolding of `stripTens`. -/
theorem stripTens_eq (m : Nat) (e : Int) :
    stripTens m e =
      if m = 0 then (0, 0)
      else if m % 10 = 0 then stripTens (m / 10) (e + 1)
      else (m, e) := by
  show stripTensF (m + 1) m e = _
  rw [stripTensF]
  by_cases h0 : m = 0
  · rw [if_pos h0, if_pos h0]
  · rw [if_neg h0, if_neg h0]
    by_cases h1 : m % 10 = 0
    · rw [if_pos h1, if_pos h1]
      have hd : m / 10 < m := Nat.div_lt_self (by omega) (by norm_num)
      rw [stripTensF_irrel m (m / 10) (e + 1) (m / 10 + 1) (by omega) (by omega)]
      rfl
    · rw [if_neg h1, if_neg h1]

/-- Builds the canonical float value for `± m·10^e` (sign preserved on zero,
matching `-0.0`). -/
def mkFloat (neg : Bool) (m : Nat) (e : Int) : FloatVal :=
  .fin neg (stripTens m e).1 (stripTens m e).2

/-- Largest finite `float` magnitude, `(2^24 − 1)·2^104`. -/
def maxFloatMag : Nat := (2 ^ 24 - 1) * 2 ^ 104

/-- Largest finite `double` magnitude, `(2^53 − 1)·2^971`. -/
def maxDoubleMag : Nat := (2 ^ 53 - 1) * 2 ^ 971

/-- Does the decimal magnitude `m·10^e` exceed `bound`? -/
def decMagGt (m : Nat) (e : Int) (bound : Nat) : Bool :=
  if 0 ≤ e then bound < m * 10 ^ e.toNat
  else bound * 10 ^ (-e).toNat < m

/-! ## Temporal formatting

Modelled from the spec: the calendar service renders dates as `YYYY-MM-DD`
and timestamps as `YYYY-MM-DDTHH:MM:SS.nnnnnnnnn` (nine fractional digits),
proleptic Gregorian, days/seconds relative to the Unix epoch. -/

/-- Decimal digits of `n` left-padded with zeros to width `k`. -/
def padTo (k n : Nat) : List Char :=
  List.replicate (k - digitsLen n) '0' ++ natDecDigits n

/-- Civil date `(year, month, day)` from days since 1970-01-01. -/
def civilFromDays (days : Int) : Int × Nat × Nat :=
  let z := days + 719468
  let era : Int := z.fdiv 146097
  let doe : Nat := (z - era * 146097).toNat
  let yoe : Nat := (doe - doe / 1460 + doe / 36524 - doe / 146096) / 365
  let doy : Nat := doe - (365 * yoe + yoe / 4 - yoe / 100)
  let mp : Nat := (5 * doy + 2) / 153
  let d : Nat := doy - (153 * mp + 2) / 5 + 1
  let m : Nat := if mp < 10 then mp + 3 else mp - 9
  ((yoe : Int) + era * 400 + (if m ≤ 2 then 1 else 0), m, d)

/-- Renders a (proleptic Gregorian) year, month, day as `YYYY-MM-DD`. -/
def formatCivil (y : Int) (m d : Nat) : List Char :=
  (if y < 0 then '-' :: padTo 4 (-y).toNat else padTo 4 y.toNat) ++
    '-' :: padTo 2 m ++ '-' :: padTo 2 d

/-- Renders a `DATE` value (days since epoch). -/
def formatDate (days : Int) : List Char :=
  let c := civilFromDays days
  formatCivil c.1 c.2.1 c.2.2

/-- Renders a `TIMESTAMP` value (seconds since epoch plus nanoseconds). -/
def formatTimestamp (sec : Int) (ns : Nat) : List Char :=
  let days := sec.fdiv 86400
  let tod := (sec - days * 86400).toNat
  formatDate days ++ 'T' :: padTo 2 (tod / 3600) ++ ':' ::
    padTo 2 (tod % 3600 / 60) ++ ':' :: padTo 2 (tod % 60) ++
    '.' :: padTo 9 ns

/-! ## The typed data model

Typed column values.  A batch row is `Option VValue` (`none` is a null row);
container elements are likewise optional.  The `unknown` type has no values
(its rows are always null). -/

inductive VType where
  | tinyint | smallint | integer | bigint
  | boolean | varchar | real | double
  | date | timestamp | unknown | json
  | arrayT (elem : VType)
  | mapT (key : VType) (val : VType)
  | rowT (fields : List (List Char × VType))

inductive VValue where
  | int (i : Int)
  | bool (b : Bool)
  | str (s : List Char)
  | flt (f : FloatVal)
  | date (d : Int)
  | ts (sec : Int) (ns : Nat)
  | json (s : List Char)
  | arr (xs : List (Option VValue))
  | map (entries : List (Option VValue × Option VValue))
  | row (fields : List (Option VValue))

/-! Structural size measures (used only to provision recursion fuel). -/

mutual

/-- Structural size of a type. -/
def tsize : VType → Nat
  | .arrayT t => 1 + tsize t
  | .mapT kt vt => 1 + tsize kt + tsize vt
  | .rowT fs => 1 + tfields fs
  | _ => 1

/-- Structural size of a row-field type list. -/
def tfields : List (List Char × VType) → Nat
  | [] => 1
  | (_, ft) :: fs => 1 + tsize ft + tfields fs

end

mutual

/-- Structural size of a parsed JSON value. -/
def jsize : JsonValue → Nat
  | .arr xs => 1 + jlist xs
  | .obj fs => 1 + jmembers fs
  | _ => 1

/-- Structural size of a JSON array body. -/
def jlist : List JsonValue → Nat
  | [] => 1
  | x :: rest => 1 + jsize x + jlist rest

/-- Structural size of a JSON object body. -/
def jmembers : List (List Char × JsonValue) → Nat
  | [] => 1
  | (_, jv) :: rest => 1 + jsize jv + jmembers rest

end

mutual

/-- Structural size of a typed value. -/
def vsize : VValue → Nat
  | .arr xs => 1 + vlist xs
  | .map es => 1 + ventries es
  | .row vs => 1 + vlist vs
  | _ => 1

/-- Structural size of a nullable typed value. -/
def vosize : Option VValue → Nat
  | none => 1
  | some v => 1 + vsize v

/-- Structural size of a list of nullable typed values. -/
def vlist : List (Option VValue) → Nat
  | [] => 1
  | x :: rest => 1 + vosize x + vlist rest

/-- Structural size of a list of map entries. -/
def ventries : List (Option VValue × Option VValue) → Nat
  | [] => 1
  | (k, v) :: rest => 1 + vosize k + vosize v + ventries rest

end

/-- Bit width of an integer type, when `t` is one. -/
def VType.intWidth : VType → Option Nat
  | .tinyint => some 8
  | .smallint => some 16
  | .integer => some 32
  | .bigint => some 64
  | _ => none

/-- Does the integer `i` fit the signed `w`-bit range? -/
def fitsWidth (w : Nat) (i : Int) : Bool :=
  decide (-(2 ^ (w - 1) : Int) ≤ i ∧ i < 2 ^ (w - 1))

/-! ## The JSON writer (cast to JSON) -/

/-- Decimal text of a signed integer. -/
def intDecChars (i : Int) : List Char :=
  if i < 0 then '-' :: natDecDigits (-i).toNat else natDecDigits i.toNat

/-- Byte-lexicographic order on key text (UTF-8 byte order coincides with
scalar-value order). -/
def bytesLe : List Char → List Char → Bool
  | [], _ => true
  | _ :: _, [] => false
  | a :: as, b :: bs =>
    if a.toNat < b.toNat then true
    else if b.toNat < a.toNat then false
    else bytesLe as bs

/-- Order on (canonical key, rendered value) pairs: byte-lexicographic by
key, ties broken by the rendered value, making the sort deterministic. -/
def pairLe (p q : List Char × List Char) : Bool :=
  if p.1 = q.1 then bytesLe p.2 q.2 else bytesLe p.1 q.1

def joinComma : List (List Char) → List Char
  | [] => []
  | [x] => x
  | x :: rest => x ++ ',' :: joinComma rest

/-- The key canonicalizer: canonical unquoted text of a scalar map key.
String keys pass through; JSON-typed keys are spliced verbatim; other
supported scalars use the scalar formatter's text. -/
def keyOf : VType → VValue → Except JsonErr (List Char)
  | .varchar, v =>
    match v with
    | .str s => .ok s
    | _ => .error .UnsupportedKeyType
  | .json, v =>
    match v with
    | .json s => .ok s
    | _ => .error .UnsupportedKeyType
  | .tinyint, v | .smallint, v | .integer, v | .bigint, v =>
    match v with
    | .int i => .ok (intDecChars i)
    | _ => .error .UnsupportedKeyType
  | .boolean, v =>
    match v with
    | .bool b =>
      .ok (if b then ['t', 'r', 'u', 'e'] else ['f', 'a', 'l', 's', 'e'])
    | _ => .error .UnsupportedKeyType
  | .real, v | .double, v =>
    match v with
    | .flt f => .ok (formatFloat f)
    | _ => .error .UnsupportedKeyType
  | _, _ => .error .UnsupportedKeyType

/-- Rendered form of a canonical key in the serialized object: JSON-typed
keys are emitted verbatim (unquoted), all others are quoted and escaped. -/
def renderKey : VType → List Char → List Char
  | .json, k => k
  | _, k => '"' :: (escapeChars k ++ ['"'])

/-- Sorts rendered map entries by canonical key (byte-lexicographic),
value-text tiebreak. -/
def sortEntries (ps : List (List Char × List Char)) :
    List (List Char × List Char) :=
  List.insertionSort (fun p q => pairLe p q = true) ps

mutual

/-- Fuel-indexed JSON writer for one value of type `t`.  A `none` element
renders as the literal `null`.  Null map keys are a (row-scoped)
`NullMapKey` failure; map entries are emitted sorted by canonical key.
Each recursive call consumes one unit of fuel and strictly shrinks the
combined size of its arguments, so any fuel above that size is enough; the
zero-fuel clause is unreachable from the `writeVal` entry point. -/
def writeValF : Nat → VType → Option VValue → Except JsonErr (List Char)
  | 0, _, _ => .error .UnsupportedCastType
  | fuel + 1, t, ov =>
    match ov with
    | none => .ok ['n', 'u', 'l', 'l']
    | some v =>
      match t with
      | .tinyint | .smallint | .integer | .bigint =>
        match v with
        | .int i => .ok (intDecChars i)
        | _ => .error .UnsupportedCastType
      | .boolean =>
        match v with
        | .bool b =>
          .ok (if b then ['t', 'r', 'u', 'e'] else ['f', 'a', 'l', 's', 'e'])
        | _ => .error .UnsupportedCastType
      | .varchar =>
        match v with
        | .str s => .ok ('"' :: (escapeChars s ++ ['"']))
        | _ => .error .UnsupportedCastType
      | .real | .double =>
        match v with
        | .flt f => .ok (formatFloat f)
        | _ => .error .UnsupportedCastType
      | .date =>
        match v with
        | .date d => .ok (formatDate d)
        | _ => .error .UnsupportedCastType
      | .timestamp =>
        match v with
        | .ts sec ns => .ok (formatTimestamp sec ns)
        | _ => .error .UnsupportedCastType
      | .json =>
        match v with
        | .json s => .ok s
        | _ => .error .UnsupportedCastType
      | .unknown => .error .UnsupportedCastType
      | .arrayT t1 =>
        match v with
        | .arr xs =>
          (writeElemsF fuel t1 xs).map fun es => '[' :: (joinComma es ++ [']'])
        | _ => .error .UnsupportedCastType
      | .mapT kt vt =>
        match v with
        | .map entries =>
          (writeMapEntriesF fuel kt vt entries).map fun ps =>
            '{' :: (joinComma ((sortEntries ps).map fun p =>
              renderKey kt p.1 ++ ':' :: p.2) ++ ['}'])
        | _ => .error .UnsupportedCastType
      | .rowT fs =>
        match v with
        | .row vals =>
          (writeRowFieldsF fuel fs vals).map fun es =>
            '[' :: (joinComma es ++ [']'])
        | _ => .error .UnsupportedCastType

/-- Writes array elements in order. -/
def writeElemsF : Nat → VType → List (Option VValue) →
    Except JsonErr (List (List Char))
  | 0, _, _ => .error .UnsupportedCastType
  | fuel + 1, t, l =>
    match l with
    | [] => .ok []
    | x :: rest => do
      let s ← writeValF fuel t x
      let r ← writeElemsF fuel t rest
      .ok (s :: r)

/-- Canonicalizes map keys and writes map values, in storage order. -/
def writeMapEntriesF : Nat → VType → VType →
    List (Option VValue × Option VValue) →
    Except JsonErr (List (List Char × List Char))
  | 0, _, _, _ => .error .UnsupportedCastType
  | fuel + 1, kt, vt, l =>
    match l with
    | [] => .ok []
    | (k, v) :: rest =>
      match k with
      | none => .error .NullMapKey
      | some kv => do
        let ks ← keyOf kt kv
        let vs ← writeValF fuel vt v
        let r ← writeMapEntriesF fuel kt vt rest
        .ok ((ks, vs) :: r)

/-- Writes row fields positionally against the declared field types. -/
def writeRowFieldsF : Nat → List (List Char × VType) → List (Option VValue) →
    Except JsonErr (List (List Char))
  | 0, _, _ => .error .UnsupportedCastType
  | fuel + 1, fs0, vs0 =>
    match fs0, vs0 with
    | [], [] => .ok []
    | f :: fs, v :: vs => do
      let s ← writeValF fuel f.2 v
      let r ← writeRowFieldsF fuel fs vs
      .ok (s :: r)
    | _, _ => .error .UnsupportedCastType

end

/-- The JSON writer entry point (adequately fueled). -/
def writeVal (t : VType) (ov : Option VValue) : Except JsonErr (List Char) :=
  writeValF (tsize t + vosize ov + 1) t ov

/-- Array-element writing (adequately fueled). -/
def writeElems (t : VType) (l : List (Option VValue)) :
    Except JsonErr (List (List Char)) :=
  writeElemsF (tsize t + vlist l + 1) t l

/-- Map-entry writing (adequately fueled). -/
def writeMapEntries (kt vt : VType) (l : List (Option VValue × Option VValue)) :
    Except JsonErr (List (List Char × List Char)) :=
  writeMapEntriesF (tsize kt + tsize vt + ventries l + 1) kt vt l

/-- Row-field writing (adequately fueled). -/
def writeRowFields (fs : List (List Char × VType)) (vs : List (Option VValue)) :
    Except JsonErr (List (List Char)) :=
  writeRowFieldsF (tfields fs + vlist vs + 1) fs vs


/-! ## The JSON reader (cast from JSON): scalar targets -/

/-- Truncation toward zero of the decimal value `± m·10^e`. -/
def truncDec (neg : Bool) (m : Nat) (e : Int) : Int :=
  let mag : Nat := if 0 ≤ e then m * 10 ^ e.toNat else m / 10 ^ (-e).toNat
  if neg then -(mag : Int) else (mag : Int)

/-- Reads a JSON value into a signed integer target of width `w`: booleans
map to 1/0; numbers are truncated toward zero and range-checked
(`NumericOverflow`); integer literals beyond the 64-bit parse range are
`NumberParseError`; all other kinds are `TypeMismatch`. -/
def readInt (w : Nat) : JsonValue → Except JsonErr (Option VValue)
  | .null => .ok none
  | .bool b => .ok (some (.int (if b then 1 else 0)))
  | .num n =>
    if n.dbl then
      if fitsWidth w (truncDec n.neg n.m n.e) then
        .ok (some (.int (truncDec n.neg n.m n.e)))
      else .error .NumericOverflow
    else
      if fitsWidth 64 (truncDec n.neg n.m n.e) then
        if fitsWidth w (truncDec n.neg n.m n.e) then
          .ok (some (.int (truncDec n.neg n.m n.e)))
        else .error .NumericOverflow
      else .error .NumberParseError
  | _ => .error .TypeMismatch

/-- Reads a JSON value into the boolean target. -/
def readBool : JsonValue → Except JsonErr (Option VValue)
  | .null => .ok none
  | .bool b => .ok (some (.bool b))
  | .num n => .ok (some (.bool (n.m ≠ 0)))
  | .str s =>
    if s = ['t', 'r', 'u', 'e'] then .ok (some (.bool true))
    else if s = ['f', 'a', 'l', 's', 'e'] then .ok (some (.bool false))
    else .error .TypeMismatch
  | _ => .error .TypeMismatch

/-- Canonical literal text of a parsed JSON number. -/
def renderNumText (n : JNum) : List Char :=
  let core :=
    if n.dbl then
      if 0 ≤ n.e then natDecDigits n.m ++ List.replicate n.e.toNat '0'
      else
        let ds := natDecDigits n.m
        let pos : Int := (ds.length : Int) + n.e
        if 0 < pos then ds.take pos.toNat ++ '.' :: ds.drop pos.toNat
        else '0' :: '.' :: (List.replicate (-pos).toNat '0' ++ ds)
    else natDecDigits n.m
  if n.neg then '-' :: core else core

/-- Reads a JSON value into a string (varchar) target: string literals pass
through unescaped; numbers and booleans convert to their literal text;
containers are `TypeMismatch`. -/
def readVarchar : JsonValue → Except JsonErr (Option VValue)
  | .null => .ok none
  | .str s => .ok (some (.str s))
  | .bool b =>
    .ok (some (.str (if b then ['t', 'r', 'u', 'e']
      else ['f', 'a', 'l', 's', 'e'])))
  | .num n => .ok (some (.str (renderNumText n)))
  | _ => .error .TypeMismatch

/-- Finite magnitude bound of the floating target (`real` or `double`). -/
def floatBound (isReal : Bool) : Nat :=
  if isReal then maxFloatMag else maxDoubleMag

/-- Converts a parsed decimal into the floating target, range-checked. -/
def readNumToFloat (isReal : Bool) (neg : Bool) (m : Nat) (e : Int) :
    Except JsonErr (Option VValue) :=
  if decMagGt m e (floatBound isReal) then .error .NumericOverflow
  else .ok (some (.flt (mkFloat neg m e)))

/-- Reads a quoted string into a floating target: the four sentinels
`Infinity`, `-Infinity`, `NaN`, `-NaN`, or a full numeric literal. -/
def readFloatText (isReal : Bool) (s : List Char) :
    Except JsonErr (Option VValue) :=
  if s = ['I', 'n', 'f', 'i', 'n', 'i', 't', 'y'] then
    .ok (some (.flt (.inf false)))
  else if s = ['-', 'I', 'n', 'f', 'i', 'n', 'i', 't', 'y'] then
    .ok (some (.flt (.inf true)))
  else if s = ['N', 'a', 'N'] then .ok (some (.flt (.nan false)))
  else if s = ['-', 'N', 'a', 'N'] then .ok (some (.flt (.nan true)))
  else
    match parseNumber s with
    | some (n, []) => readNumToFloat isReal n.neg n.m n.e
    | _ => .error .TypeMismatch

/-- Reads a JSON value into a floating target (`isReal` selects 32-bit). -/
def readFloat (isReal : Bool) : JsonValue → Except JsonErr (Option VValue)
  | .null => .ok none
  | .bool b => .ok (some (.flt (.fin false (if b then 1 else 0) 0)))
  | .num n => readNumToFloat isReal n.neg n.m n.e
  | .str s => readFloatText isReal s
  | _ => .error .TypeMismatch

/-! ## Serialization of parsed JSON (for opaque-JSON targets) -/

mutual

/-- Canonical text of a parsed JSON value (used when the target is the
opaque already-JSON type). -/
def serializeJson : JsonValue → List Char
  | .null => ['n', 'u', 'l', 'l']
  | .bool b => if b then ['t', 'r', 'u', 'e'] else ['f', 'a', 'l', 's', 'e']
  | .num n => renderNumText n
  | .str s => '"' :: (escapeChars s ++ ['"'])
  | .arr xs => '[' :: (joinComma (serializeItems xs) ++ [']'])
  | .obj fs => '{' :: (joinComma (serializeMembers fs) ++ ['}'])

def serializeItems : List JsonValue → List (List Char)
  | [] => []
  | x :: rest => serializeJson x :: serializeItems rest

def serializeMembers : List (List Char × JsonValue) → List (List Char)
  | [] => []
  | f :: rest =>
    ('"' :: (escapeChars f.1 ++ '"' :: ':' :: serializeJson f.2)) ::
      serializeMembers rest

end

/-! ## The JSON reader: recursive targets -/

/-- The last occurrence of key `k` among object fields (duplicate JSON keys
resolve to the last occurrence). -/
def lookupLast (k : List Char) (fs : List (List Char × JsonValue)) :
    Option JsonValue :=
  (fs.reverse.find? fun f => decide (f.1 = k)).map (·.2)

/-- Re-parses a JSON object key (a string by grammar) as the map target's
key type. -/
def readKeyText (kt : VType) (k : List Char) : Except JsonErr VValue :=
  match kt with
  | .varchar => .ok (.str k)
  | .boolean =>
    if k = ['t', 'r', 'u', 'e'] then .ok (.bool true)
    else if k = ['f', 'a', 'l', 's', 'e'] then .ok (.bool false)
    else .error .TypeMismatch
  | .tinyint | .smallint | .integer | .bigint =>
    match parseNumber k with
    | some (n, []) =>
      match readInt (match kt with
        | .tinyint => 8 | .smallint => 16 | .integer => 32 | _ => 64)
          (.num n) with
      | .ok (some v) => .ok v
      | .ok none => .error .TypeMismatch
      | .error e => .error e
    | _ => .error .TypeMismatch
  | .real =>
    match readFloatText true k with
    | .ok (some v) => .ok v
    | .ok none => .error .TypeMismatch
    | .error e => .error e
  | .double =>
    match readFloatText false k with
    | .ok (some v) => .ok v
    | .ok none => .error .TypeMismatch
    | .error e => .error e
  | _ => .error .UnsupportedCastType

mutual

/-- Fuel-indexed JSON reader: maps a parsed JSON value onto the target
type, enforcing per-target-type validity.  JSON `null` reads as a null
value (except for the opaque JSON target, which keeps the text `null`).
The opaque-JSON branch is approximated here: it re-serializes the parse
tree canonically, whereas the engine retains the original document bytes
verbatim (including interior whitespace); no theorem below relies on that
branch.  Each recursive call consumes one unit of fuel and strictly
shrinks the combined size of its arguments, so any fuel above that size is
enough; the zero-fuel clause is unreachable from the `readValue` entry
point. -/
def readValueF : Nat → VType → JsonValue → Except JsonErr (Option VValue)
  | 0, _, _ => .error .TypeMismatch
  | fuel + 1, t, v =>
    match t with
    | .tinyint => readInt 8 v
    | .smallint => readInt 16 v
    | .integer => readInt 32 v
    | .bigint => readInt 64 v
    | .boolean => readBool v
    | .varchar => readVarchar v
    | .real => readFloat true v
    | .double => readFloat false v
    | .json => .ok (some (.json (serializeJson v)))
    | .date => .error .UnsupportedCastType
    | .timestamp => .error .UnsupportedCastType
    | .unknown => .error .UnsupportedCastType
    | .arrayT t1 =>
      match v with
      | .null => .ok none
      | .arr xs => (readElemsF fuel t1 xs).map fun es => some (.arr es)
      | _ => .error .TypeMismatch
    | .mapT kt vt =>
      match v with
      | .null => .ok none
      | .obj fs => (readMembersF fuel kt vt fs).map fun es => some (.map es)
      | _ => .error .TypeMismatch
    | .rowT fs =>
      match v with
      | .null => .ok none
      | .arr xs =>
        if xs.length = fs.length then
          (readRowPositionalF fuel fs xs).map fun es => some (.row es)
        else .error .TypeMismatch
      | .obj ofs => (readRowNamedF fuel fs ofs).map fun es => some (.row es)
      | _ => .error .TypeMismatch

/-- Reads array elements recursively against the element type. -/
def readElemsF : Nat → VType → List JsonValue →
    Except JsonErr (List (Option VValue))
  | 0, _, _ => .error .TypeMismatch
  | fuel + 1, t, xs =>
    match xs with
    | [] => .ok []
    | x :: rest => do
      let v ← readValueF fuel t x
      let r ← readElemsF fuel t rest
      .ok (v :: r)

/-- Reads object members into map entries: keys re-parsed against the key
type, values recursively against the value type, in document order. -/
def readMembersF : Nat → VType → VType → List (List Char × JsonValue) →
    Except JsonErr (List (Option VValue × Option VValue))
  | 0, _, _, _ => .error .TypeMismatch
  | fuel + 1, kt, vt, fs =>
    match fs with
    | [] => .ok []
    | (k, jv) :: rest => do
      let kv ← readKeyText kt k
      let vv ← readValueF fuel vt jv
      let r ← readMembersF fuel kt vt rest
      .ok ((some kv, vv) :: r)

/-- Strict positional match of a JSON array against row fields. -/
def readRowPositionalF : Nat → List (List Char × VType) → List JsonValue →
    Except JsonErr (List (Option VValue))
  | 0, _, _ => .error .TypeMismatch
  | fuel + 1, fs0, xs0 =>
    match fs0, xs0 with
    | [], [] => .ok []
    | (_, ft) :: fs, x :: xs => do
      let v ← readValueF fuel ft x
      let r ← readRowPositionalF fuel fs xs
      .ok (v :: r)
    | _, _ => .error .TypeMismatch

/-- Field-by-name match of a JSON object against row fields: absent fields
become null, unknown JSON fields are ignored, duplicates resolve to the
last occurrence. -/
def readRowNamedF : Nat → List (List Char × VType) →
    List (List Char × JsonValue) → Except JsonErr (List (Option VValue))
  | 0, _, _ => .error .TypeMismatch
  | fuel + 1, fs0, ofs =>
    match fs0 with
    | [] => .ok []
    | (nm, ft) :: fs =>
      (match lookupLast nm ofs with
        | some jv => readValueF fuel ft jv
        | none => .ok none).bind fun v =>
      (readRowNamedF fuel fs ofs).map fun r => v :: r

end

/-- The JSON reader entry point (adequately fueled). -/
def readValue (t : VType) (v : JsonValue) : Except JsonErr (Option VValue) :=
  readValueF (tsize t + jsize v + 1) t v

/-- Array-element reading (adequately fueled). -/
def readElems (t : VType) (xs : List JsonValue) :
    Except JsonErr (List (Option VValue)) :=
  readElemsF (tsize t + jlist xs + 1) t xs

/-- Map-member reading (adequately fueled). -/
def readMembers (kt vt : VType) (fs : List (List Char × JsonValue)) :
    Except JsonErr (List (Option VValue × Option VValue)) :=
  readMembersF (tsize kt + tsize vt + jmembers fs + 1) kt vt fs

/-- Positional row reading (adequately fueled). -/
def readRowPositional (fs : List (List Char × VType)) (xs : List JsonValue) :
    Except JsonErr (List (Option VValue)) :=
  readRowPositionalF (tfields fs + jlist xs + 1) fs xs

/-- Named row reading (adequately fueled). -/
def readRowNamed (fs : List (List Char × VType))
    (ofs : List (List Char × JsonValue)) :
    Except JsonErr (List (Option VValue)) :=
  readRowNamedF (tfields fs + jmembers ofs + 1) fs ofs

/-! ## Plan-time type checks

Type validity is checked once per cast plan, before any row is processed;
an unsupported type pair aborts the whole invocation regardless of the
error policy. -/

/-- Key types a map may have when serializing to JSON. -/
def supportedJsonKey : VType → Bool
  | .tinyint | .smallint | .integer | .bigint => true
  | .boolean | .varchar | .real | .double | .json => true
  | _ => false

mutual

/-- Can values of type `t` be cast to JSON? -/
def writableToJson : VType → Bool
  | .arrayT t => writableToJson t
  | .mapT kt vt => supportedJsonKey kt && writableToJson vt
  | .rowT fs => writableRow fs
  | _ => true

def writableRow : List (List Char × VType) → Bool
  | [] => true
  | (_, ft) :: fs => writableToJson ft && writableRow fs

end

/-- Key types a map target may have when reading from JSON (the opaque JSON
type is disallowed as a key at plan time). -/
def readableKey : VType → Bool
  | .tinyint | .smallint | .integer | .bigint => true
  | .boolean | .varchar | .real | .double => true
  | _ => false

mutual

/-- Can JSON be cast to values of type `t`?  Temporal targets are rejected
at plan time (`Cannot cast JSON to TIMESTAMP` / `DATE`). -/
def readableFromJson : VType → Bool
  | .date | .timestamp | .unknown => false
  | .arrayT t => readableFromJson t
  | .mapT kt vt => readableKey kt && readableFromJson vt
  | .rowT fs => readableRow fs
  | _ => true

def readableRow : List (List Char × VType) → Bool
  | [] => true
  | (_, ft) :: fs => readableFromJson ft && readableRow fs

end

/-! ## Row-level error policy and the cast API -/

inductive CastMode where
  | strict
  | tryMode
deriving DecidableEq

/-- One row of a cast to JSON: a null row stays a null row. -/
def writeRow (t : VType) : Option VValue → Except JsonErr (Option (List Char))
  | none => .ok none
  | some v => (writeVal t (some v)).map some

/-- One row of a cast from JSON: a null row stays null; otherwise the text
is parsed and read into the target type. -/
def readRow (t : VType) : Option (List Char) → Except JsonErr (Option VValue)
  | none => .ok none
  | some s => (parseJson s).bind fun jv => readValue t jv

/-- Strict policy: the first row-level failure aborts the whole batch. -/
def castRowsStrict (f : Option α → Except JsonErr (Option β)) :
    List (Option α) → Except JsonErr (List (Option β))
  | [] => .ok []
  | r :: rest => do
    let v ← f r
    let vs ← castRowsStrict f rest
    .ok (v :: vs)

/-- Try policy on one row: a failure becomes a null result. -/
def rowTry (f : Option α → Except JsonErr (Option β)) (r : Option α) :
    Option β :=
  match f r with
  | .ok v => v
  | .error _ => none

/-- Row-level error policy: rows are evaluated independently; under `try`,
a data-dependent failure nulls only the offending row. -/
def castRows (mode : CastMode) (f : Option α → Except JsonErr (Option β))
    (rows : List (Option α)) : Except JsonErr (List (Option β)) :=
  match mode with
  | .strict => castRowsStrict f rows
  | .tryMode => .ok (rows.map (rowTry f))

/-- The cast entry point, typed values to JSON text. -/
def castToJson (mode : CastMode) (t : VType) (rows : List (Option VValue)) :
    Except JsonErr (List (Option (List Char))) :=
  if writableToJson t then castRows mode (writeRow t) rows
  else .error .UnsupportedCastType

/-- The cast entry point, JSON text to typed values. -/
def castFromJson (mode : CastMode) (t : VType)
    (rows : List (Option (List Char))) : Except JsonErr (List (Option VValue)) :=
  if readableFromJson t then castRows mode (readRow t) rows
  else .error .UnsupportedCastType

/-! ## The encoding normalizer

A vector is flat, or a dictionary wrapper (index remapping plus an optional
null overlay), or a constant wrapper, with wrappers stacking arbitrarily.
`resolve` peels wrappers iteratively, OR-ing null overlays. -/

inductive EncVector where
  | flat (vals : List (Option VValue))
  | dict (nulls : Option (List Bool)) (indices : List Nat) (base : EncVector)
  | const (len : Nat) (idx : Nat) (base : EncVector)

/-- Number of (logical) rows of the vector. -/
def EncVector.size : EncVector → Nat
  | .flat vs => vs.length
  | .dict _ idxs _ => idxs.length
  | .const n _ _ => n

/-- The encoding normalizer: the logical value at row `i`, peeling all
wrappers; a row is null as soon as any overlay marks it null (or an index
is out of range). -/
def resolve : EncVector → Nat → Option VValue
  | .flat vs, i => (vs[i]?).join
  | .dict nulls idxs base, i =>
    if (match nulls with | some ns => ns.getD i false | none => false) then
      none
    else
      match idxs[i]? with
      | some j => resolve base j
      | none => none
  | .const n j base, i => if i < n then resolve base j else none

/-- The flat batch holding the same logical per-row values. -/
def logicalRows (v : EncVector) : List (Option VValue) :=
  (List.range v.size).map (resolve v)

/-- Strict per-index loop. -/
def strictMapIdx (f : Nat → Except JsonErr (Option β)) :
    List Nat → Except JsonErr (List (Option β))
  | [] => .ok []
  | i :: is => do
    let v ← f i
    let vs ← strictMapIdx f is
    .ok (v :: vs)

/-- Casting an encoded vector to JSON as the engine does it: a per-row loop
that resolves each logical row through the encoding normalizer and feeds it
to the row writer. -/
def castToJsonEnc (mode : CastMode) (t : VType) (v : EncVector) :
    Except JsonErr (List (Option (List Char))) :=
  if writableToJson t then
    match mode with
    | .strict =>
      strictMapIdx (fun i => writeRow t (resolve v i)) (List.range v.size)
    | .tryMode =>
      .ok ((List.range v.size).map fun i => rowTry (writeRow t) (resolve v i))
  else .error .UnsupportedCastType

/-! ## Helper lemmas -/

theorem eraseIdx_map (f : α → β) : ∀ (l : List α) (i : Nat),
    (l.map f).eraseIdx i = (l.eraseIdx i).map f := by
  intro l
  induction l with
  | nil => intro i; simp
  | cons x xs ih =>
    intro i
    cases i with
    | zero => simp
    | succ j => simp [List.eraseIdx, ih j]

theorem strictMapIdx_comp (f : Option VValue → Except JsonErr (Option β))
    (g : Nat → Option VValue) : ∀ is : List Nat,
    strictMapIdx (fun i => f (g i)) is = castRowsStrict f (is.map g) := by
  intro is
  induction is with
  | nil => rfl
  | cons i is ih => simp [strictMapIdx, castRowsStrict, ih]

theorem bindE_ok (a : α) (f : α → Except ε β) :
    (Except.ok a : Except ε α) >>= f = f a := rfl

theorem bindE_error (e : ε) (f : α → Except ε β) :
    (Except.error e : Except ε α) >>= f = .error e := rfl

theorem pureE (a : α) : (pure a : Except ε α) = .ok a := rfl

theorem bindOk (a : α) (f : α → Except ε β) :
    (Except.ok a : Except ε α).bind f = f a := rfl

theorem bindError (e : ε) (f : α → Except ε β) :
    (Except.error e : Except ε α).bind f = .error e := rfl

/-! ### Branch-resolved evaluation lemmas for the parser

`simp` with the raw recursive equations simplifies unreachable branches;
these step lemmas resolve the dispatch first. -/

theorem parseStrBody_close (rest : List Char) :
    parseStrBody ('"' :: rest) = some ([], rest) := by
  rw [parseStrBody_eq]
  dsimp only
  rw [if_pos rfl]

theorem parseStrBody_plain (c : Char) (h1 : ¬ c = '"') (h2 : ¬ c = '\\')
    (rest : List Char) : parseStrBody (c :: rest) =
      (parseStrBody rest).map fun p => (c :: p.1, p.2) := by
  rw [parseStrBody_eq]
  dsimp only
  rw [if_neg h1, if_neg h2]

theorem parseStrBody_escStep (e : Char) (ec : Char) (h1 : ¬ e = 'u')
    (h2 : escDecode e = some ec) (rest : List Char) :
    parseStrBody ('\\' :: e :: rest) =
      (parseStrBody rest).map fun p => (ec :: p.1, p.2) := by
  rw [parseStrBody_eq]
  dsimp only
  rw [if_neg (by decide), if_pos rfl, if_neg h1, h2]
  rfl

theorem parseValue_null (fuel : Nat) (rest : List Char) :
    parseValue (fuel + 1) ('n' :: 'u' :: 'l' :: 'l' :: rest) =
      some (.null, rest) := rfl

theorem parseValue_true (fuel : Nat) (rest : List Char) :
    parseValue (fuel + 1) ('t' :: 'r' :: 'u' :: 'e' :: rest) =
      some (.bool true, rest) := rfl

theorem parseValue_false (fuel : Nat) (rest : List Char) :
    parseValue (fuel + 1) ('f' :: 'a' :: 'l' :: 's' :: 'e' :: rest) =
      some (.bool false, rest) := rfl

theorem parseValue_str (fuel : Nat) (rest : List Char) :
    parseValue (fuel + 1) ('"' :: rest) =
      (parseStrBody rest).map fun p => (.str p.1, p.2) := by
  rw [parseValue.eq_def]
  dsimp only
  rw [if_neg (by decide), if_neg (by decide), if_neg (by decide), if_pos rfl]

theorem parseValue_arr (fuel : Nat) (rest : List Char) :
    parseValue (fuel + 1) ('[' :: rest) =
      (match skipWs rest with
        | c2 :: rest2 =>
          if c2 = ']' then some (.arr [], rest2)
          else (parseItems fuel (c2 :: rest2)).map fun p => (.arr p.1, p.2)
        | [] => none) := by
  rw [parseValue.eq_def]
  dsimp only
  rw [if_neg (by decide), if_neg (by decide), if_neg (by decide),
    if_neg (by decide), if_pos rfl]

theorem parseValue_obj (fuel : Nat) (rest : List Char) :
    parseValue (fuel + 1) ('{' :: rest) =
      (match skipWs rest with
        | c2 :: rest2 =>
          if c2 = '}' then some (.obj [], rest2)
          else (parseMembers fuel (c2 :: rest2)).map fun p => (.obj p.1, p.2)
        | [] => none) := by
  rw [parseValue.eq_def]
  dsimp only
  rw [if_neg (by decide), if_neg (by decide), if_neg (by decide),
    if_neg (by decide), if_neg (by decide), if_pos rfl]

theorem parseValue_num (c : Char) (h1 : ¬ c = 'n') (h2 : ¬ c = 't')
    (h3 : ¬ c = 'f') (h4 : ¬ c = '"') (h5 : ¬ c = '[') (h6 : ¬ c = '{')
    (fuel : Nat) (l : List Char) :
    parseValue (fuel + 1) (c :: l) =
      (parseNumber (c :: l)).map fun p => (.num p.1, p.2) := by
  rw [parseValue.eq_def]
  dsimp only
  rw [if_neg h1, if_neg h2, if_neg h3, if_neg h4, if_neg h5, if_neg h6]

theorem parseItems_step (fuel : Nat) (l : List Char) (v : JsonValue)
    (r : List Char) (h : parseValue fuel (skipWs l) = some (v, r)) :
    parseItems (fuel + 1) l =
      (match skipWs r with
        | c :: r2 =>
          if c = ',' then (parseItems fuel r2).map fun p => (v :: p.1, p.2)
          else if c = ']' then some ([v], r2)
          else none
        | [] => none) := by
  rw [parseItems.eq_def]
  dsimp only
  rw [h]
  rfl

theorem parseMembers_step (fuel : Nat) (l r1 k r2 r3 : List Char)
    (v : JsonValue) (r4 : List Char)
    (h1 : skipWs l = '"' :: r1)
    (h2 : parseStrBody r1 = some (k, r2))
    (h3 : skipWs r2 = ':' :: r3)
    (h4 : parseValue fuel (skipWs r3) = some (v, r4)) :
    parseMembers (fuel + 1) l =
      (match skipWs r4 with
        | c3 :: r5 =>
          if c3 = ',' then
            (parseMembers fuel r5).map fun p => ((k, v) :: p.1, p.2)
          else if c3 = '}' then some ([(k, v)], r5)
          else none
        | [] => none) := by
  rw [parseMembers.eq_def]
  dsimp only
  simp only [h1, h2, h3, h4, Option.some_bind, reduceIte]

/-! ## Order facts for map-key sorting -/

theorem bytesLe_refl : ∀ l : List Char, bytesLe l l = true := by
  intro l
  induction l with
  | nil => rfl
  | cons a as ih =>
    have hn : ¬ a.toNat < a.toNat := by omega
    rw [bytesLe, if_neg hn, if_neg hn]
    exact ih

theorem bytesLe_total : ∀ a b : List Char,
    bytesLe a b = true ∨ bytesLe b a = true := by
  intro a
  induction a with
  | nil => intro b; left; rfl
  | cons x xs ih =>
    intro b
    cases b with
    | nil => right; rfl
    | cons y ys =>
      by_cases hxy : x.toNat < y.toNat
      · left; rw [bytesLe, if_pos hxy]
      · by_cases hyx : y.toNat < x.toNat
        · right; rw [bytesLe, if_pos hyx]
        · rw [bytesLe, bytesLe, if_neg hxy, if_neg hyx, if_neg hyx, if_neg hxy]
          exact ih ys

theorem bytesLe_trans : ∀ a b c : List Char, bytesLe a b = true →
    bytesLe b c = true → bytesLe a c = true := by
  intro a
  induction a with
  | nil => intro b c _ _; rfl
  | cons x xs ih =>
    intro b c hab hbc
    cases b with
    | nil => rw [bytesLe] at hab; exact absurd hab (by simp)
    | cons y ys =>
      cases c with
      | nil => rw [bytesLe] at hbc; exact absurd hbc (by simp)
      | cons z zs =>
        rw [bytesLe] at hab hbc ⊢
        by_cases hxy : x.toNat < y.toNat
        · by_cases hyz : y.toNat < z.toNat
          · rw [if_pos (by omega : x.toNat < z.toNat)]
          · rw [if_neg hyz] at hbc
            by_cases hzy : z.toNat < y.toNat
            · rw [if_pos hzy] at hbc; exact absurd hbc (by simp)
            · rw [if_pos (by omega : x.toNat < z.toNat)]
        · rw [if_neg hxy] at hab
          by_cases hyx : y.toNat < x.toNat
          · rw [if_pos hyx] at hab; exact absurd hab (by simp)
          · rw [if_neg hyx] at hab
            by_cases hyz : y.toNat < z.toNat
            · rw [if_pos (by omega : x.toNat < z.toNat)]
            · rw [if_neg hyz] at hbc
              by_cases hzy : z.toNat < y.toNat
              · rw [if_pos hzy] at hbc; exact absurd hbc (by simp)
              · rw [if_neg hzy] at hbc
                rw [if_neg (by omega : ¬ x.toNat < z.toNat),
                  if_neg (by omega : ¬ z.toNat < x.toNat)]
                exact ih ys zs hab hbc

theorem bytesLe_antisymm : ∀ a b : List Char, bytesLe a b = true →
    bytesLe b a = true → a = b := by
  intro a
  induction a with
  | nil =>
    intro b _ hba
    cases b with
    | nil => rfl
    | cons y ys => rw [bytesLe] at hba; exact absurd hba (by simp)
  | cons x xs ih =>
    intro b hab hba
    cases b with
    | nil => rw [bytesLe] at hab; exact absurd hab (by simp)
    | cons y ys =>
      rw [bytesLe] at hab hba
      by_cases hxy : x.toNat < y.toNat
      · rw [if_neg (by omega : ¬ y.toNat < x.toNat), if_pos hxy] at hba
        exact absurd hba (by simp)
      · by_cases hyx : y.toNat < x.toNat
        · rw [if_neg hxy, if_pos hyx] at hab
          exact absurd hab (by simp)
        · rw [if_neg hxy, if_neg hyx] at hab
          rw [if_neg hyx, if_neg hxy] at hba
          have hnat : x.toNat = y.toNat := by omega
          have hx : x = y := by
            rw [← Char.ofNat_toNat x, ← Char.ofNat_toNat y, hnat]
          rw [hx, ih ys hab hba]

theorem pairLe_key (p q : List Char × List Char) (h : pairLe p q = true) :
    bytesLe p.1 q.1 = true := by
  rw [pairLe] at h
  by_cases hk : p.1 = q.1
  · rw [hk]; exact bytesLe_refl _
  · rw [if_neg hk] at h; exact h

theorem pairLe_total (p q : List Char × List Char) :
    pairLe p q = true ∨ pairLe q p = true := by
  rw [pairLe, pairLe]
  by_cases hk : p.1 = q.1
  · rw [if_pos hk, if_pos (hk.symm)]
    exact bytesLe_total _ _
  · rw [if_neg hk, if_neg (fun h => hk h.symm)]
    exact bytesLe_total _ _

theorem pairLe_trans (p q r : List Char × List Char) (h1 : pairLe p q = true)
    (h2 : pairLe q r = true) : pairLe p r = true := by
  rw [pairLe] at h1 h2 ⊢
  by_cases hpq : p.1 = q.1
  · rw [if_pos hpq] at h1
    by_cases hqr : q.1 = r.1
    · rw [if_pos hqr] at h2
      rw [if_pos (hpq.trans hqr)]
      exact bytesLe_trans _ _ _ h1 h2
    · rw [if_neg hqr] at h2
      rw [if_neg (by rw [hpq]; exact hqr), hpq]
      exact h2
  · rw [if_neg hpq] at h1
    by_cases hqr : q.1 = r.1
    · have hpr : ¬ p.1 = r.1 := by rw [← hqr]; exact hpq
      rw [if_neg hpr, ← hqr]
      exact h1
    · rw [if_neg hqr] at h2
      by_cases hpr : p.1 = r.1
      · exfalso
        have hq : bytesLe r.1 q.1 = true := by rw [← hpr]; exact h1
        exact hqr (bytesLe_antisymm _ _ h2 hq)
      · rw [if_neg hpr]
        exact bytesLe_trans _ _ _ h1 h2

theorem pairLe_antisymm (p q : List Char × List Char)
    (h1 : pairLe p q = true) (h2 : pairLe q p = true) : p = q := by
  rw [pairLe] at h1 h2
  by_cases hk : p.1 = q.1
  · rw [if_pos hk] at h1
    rw [if_pos hk.symm] at h2
    have hv : p.2 = q.2 := bytesLe_antisymm _ _ h1 h2
    exact Prod.ext hk hv
  · rw [if_neg hk] at h1
    rw [if_neg (fun h => hk h.symm)] at h2
    exact absurd (bytesLe_antisymm _ _ h1 h2) hk

/-! ## Fuel irrelevance for the writer -/

theorem writeF_irrel : ∀ f1 : Nat,
    (∀ t ov f2, tsize t + vosize ov < f1 → tsize t + vosize ov < f2 →
      writeValF f1 t ov = writeValF f2 t ov) ∧
    (∀ t l f2, tsize t + vlist l < f1 → tsize t + vlist l < f2 →
      writeElemsF f1 t l = writeElemsF f2 t l) ∧
    (∀ kt vt l f2, tsize kt + tsize vt + ventries l < f1 →
      tsize kt + tsize vt + ventries l < f2 →
      writeMapEntriesF f1 kt vt l = writeMapEntriesF f2 kt vt l) ∧
    (∀ fs vs f2, tfields fs + vlist vs < f1 → tfields fs + vlist vs < f2 →
      writeRowFieldsF f1 fs vs = writeRowFieldsF f2 fs vs) := by
  intro f1
  induction f1 with
  | zero =>
    refine ⟨?_, ?_, ?_, ?_⟩
    · intro t ov f2 h1 h2; omega
    · intro t l f2 h1 h2; omega
    · intro kt vt l f2 h1 h2; omega
    · intro fs vs f2 h1 h2; omega
  | succ g1 ih =>
    obtain ⟨ihV, ihE, ihM, ihR⟩ := ih
    refine ⟨?_, ?_, ?_, ?_⟩
    · intro t ov f2 h1 h2
      cases f2 with
      | zero => omega
      | succ g2 =>
        cases ov with
        | none => rfl
        | some v =>
          cases t with
          | arrayT t1 =>
            cases v with
            | arr xs =>
              show (writeElemsF g1 t1 xs).map _ = (writeElemsF g2 t1 xs).map _
              rw [ihE t1 xs g2
                (by simp only [tsize, vosize, vsize] at h1; omega)
                (by simp only [tsize, vosize, vsize] at h2; omega)]
            | int i => rfl
            | bool b => rfl
            | str s => rfl
            | flt f => rfl
            | date d => rfl
            | ts sec ns => rfl
            | json s => rfl
            | map es => rfl
            | row vs => rfl
          | mapT kt vt =>
            cases v with
            | map es =>
              show (writeMapEntriesF g1 kt vt es).map _ =
                (writeMapEntriesF g2 kt vt es).map _
              rw [ihM kt vt es g2
                (by simp only [tsize, vosize, vsize] at h1; omega)
                (by simp only [tsize, vosize, vsize] at h2; omega)]
            | int i => rfl
            | bool b => rfl
            | str s => rfl
            | flt f => rfl
            | date d => rfl
            | ts sec ns => rfl
            | json s => rfl
            | arr xs => rfl
            | row vs => rfl
          | rowT fs =>
            cases v with
            | row vals =>
              show (writeRowFieldsF g1 fs vals).map _ =
                (writeRowFieldsF g2 fs vals).map _
              rw [ihR fs vals g2
                (by simp only [tsize, vosize, vsize] at h1; omega)
                (by simp only [tsize, vosize, vsize] at h2; omega)]
            | int i => rfl
            | bool b => rfl
            | str s => rfl
            | flt f => rfl
            | date d => rfl
            | ts sec ns => rfl
            | json s => rfl
            | arr xs => rfl
            | map es => rfl
          | tinyint => rfl
          | smallint => rfl
          | integer => rfl
          | bigint => rfl
          | boolean => rfl
          | varchar => rfl
          | real => rfl
          | double => rfl
          | date => rfl
          | timestamp => rfl
          | unknown => rfl
          | json => rfl
    · intro t l f2 h1 h2
      cases f2 with
      | zero => omega
      | succ g2 =>
        cases l with
        | nil => rfl
        | cons x rest =>
          show (writeValF g1 t x).bind _ = (writeValF g2 t x).bind _
          rw [ihV t x g2
            (by simp only [vlist] at h1; omega)
            (by simp only [vlist] at h2; omega)]
          congr 1
          funext s
          rw [ihE t rest g2
            (by simp only [vlist] at h1; omega)
            (by simp only [vlist] at h2; omega)]
    · intro kt vt l f2 h1 h2
      cases f2 with
      | zero => omega
      | succ g2 =>
        cases l with
        | nil => rfl
        | cons e rest =>
          obtain ⟨k, v⟩ := e
          cases k with
          | none => rfl
          | some kv =>
            show (keyOf kt kv).bind _ = (keyOf kt kv).bind _
            congr 1
            funext ks
            rw [ihV vt v g2
              (by simp only [ventries, vosize] at h1; omega)
              (by simp only [ventries, vosize] at h2; omega)]
            congr 1
            funext vs
            rw [ihM kt vt rest g2
              (by simp only [ventries, vosize] at h1; omega)
              (by simp only [ventries, vosize] at h2; omega)]
    · intro fs vs f2 h1 h2
      cases f2 with
      | zero => omega
      | succ g2 =>
        cases fs with
        | nil =>
          cases vs with
          | nil => rfl
          | cons v vs2 => rfl
        | cons f fs2 =>
          obtain ⟨nm, ft⟩ := f
          cases vs with
          | nil => rfl
          | cons v vs2 =>
            show (writeValF g1 ft v).bind _ = (writeValF g2 ft v).bind _
            rw [ihV ft v g2
              (by simp only [tfields, vlist] at h1; omega)
              (by simp only [tfields, vlist] at h2; omega)]
            congr 1
            funext s
            rw [ihR fs2 vs2 g2
              (by simp only [tfields, vlist] at h1; omega)
              (by simp only [tfields, vlist] at h2; omega)]

theorem writeValF_eq (f : Nat) (t : VType) (ov : Option VValue)
    (h : tsize t + vosize ov < f) : writeValF f t ov = writeVal t ov :=
  (writeF_irrel f).1 t ov _ h (by omega)

theorem writeElemsF_eq (f : Nat) (t : VType) (l : List (Option VValue))
    (h : tsize t + vlist l < f) : writeElemsF f t l = writeElems t l :=
  (writeF_irrel f).2.1 t l _ h (by omega)

theorem writeMapEntriesF_eq (f : Nat) (kt vt : VType)
    (l : List (Option VValue × Option VValue))
    (h : tsize kt + tsize vt + ventries l < f) :
    writeMapEntriesF f kt vt l = writeMapEntries kt vt l :=
  (writeF_irrel f).2.2.1 kt vt l _ h (by omega)

theorem writeRowFieldsF_eq (f : Nat) (fs : List (List Char × VType))
    (vs : List (Option VValue)) (h : tfields fs + vlist vs < f) :
    writeRowFieldsF f fs vs = writeRowFields fs vs :=
  (writeF_irrel f).2.2.2 fs vs _ h (by omega)

/-- The writer's map clause, at the wrapper level. -/
theorem writeVal_map (kt vt : VType)
    (entries : List (Option VValue × Option VValue)) :
    writeVal (.mapT kt vt) (some (.map entries)) =
      (writeMapEntries kt vt entries).map fun ps =>
        '{' :: (joinComma ((sortEntries ps).map fun p =>
          renderKey kt p.1 ++ ':' :: p.2) ++ ['}']) := by
  show (writeMapEntriesF (tsize (VType.mapT kt vt) +
      vosize (some (VValue.map entries))) kt vt entries).map _ = _
  rw [writeMapEntriesF_eq _ _ _ _
    (by simp only [tsize, vosize, vsize]; omega)]

theorem writeMapEntries_consNone (kt vt : VType) (v : Option VValue)
    (rest : List (Option VValue × Option VValue)) :
    writeMapEntries kt vt ((none, v) :: rest) = .error .NullMapKey := rfl

/-- Cons equation for map-entry writing, at the wrapper level. -/
theorem writeMapEntries_cons (kt vt : VType) (kv : VValue) (v : Option VValue)
    (rest : List (Option VValue × Option VValue)) :
    writeMapEntries kt vt ((some kv, v) :: rest) =
      (keyOf kt kv).bind fun ks =>
      (writeVal vt v).bind fun vs =>
      (writeMapEntries kt vt rest).bind fun r => .ok ((ks, vs) :: r) := by
  show (keyOf kt kv).bind _ = (keyOf kt kv).bind _
  congr 1
  funext ks
  rw [writeValF_eq _ _ _ (by simp only [ventries, vosize]; omega)]
  congr 1
  funext vs
  rw [writeMapEntriesF_eq _ _ _ _ (by simp only [ventries, vosize]; omega)]
  rfl

/-- Inversion of a successful map-entry write at a cons cell. -/
theorem writeMapEntries_cons_ok (kt vt : VType) (k v : Option VValue)
    (rest : List (Option VValue × Option VValue))
    (ps : List (List Char × List Char))
    (hok : writeMapEntries kt vt ((k, v) :: rest) = .ok ps) :
    ∃ kv ks vs r, k = some kv ∧ keyOf kt kv = .ok ks ∧
      writeVal vt v = .ok vs ∧ writeMapEntries kt vt rest = .ok r ∧
      ps = (ks, vs) :: r := by
  cases k with
  | none => rw [writeMapEntries_consNone] at hok; cases hok
  | some kv =>
    rw [writeMapEntries_cons] at hok
    cases hks : keyOf kt kv with
    | error e => rw [hks, bindError] at hok; cases hok
    | ok ks =>
      rw [hks, bindOk] at hok
      cases hvs : writeVal vt v with
      | error e => rw [hvs, bindError] at hok; cases hok
      | ok vs =>
        rw [hvs, bindOk] at hok
        cases hr : writeMapEntries kt vt rest with
        | error e => rw [hr, bindError] at hok; cases hok
        | ok r =>
          rw [hr, bindOk] at hok
          cases hok
          exact ⟨kv, ks, vs, r, rfl, hks, rfl, rfl, rfl⟩

/-- A permutation of the stored entries yields a permutation of the
rendered entries (when the write succeeds). -/
theorem writeMapEntries_perm (kt vt : VType)
    (entries entries' : List (Option VValue × Option VValue))
    (hperm : entries.Perm entries') :
    ∀ ps, writeMapEntries kt vt entries = .ok ps →
    ∃ ps', writeMapEntries kt vt entries' = .ok ps' ∧ ps.Perm ps' := by
  induction hperm with
  | nil => intro ps h; exact ⟨ps, h, List.Perm.refl _⟩
  | cons x h ih =>
    intro ps hok
    obtain ⟨k, v⟩ := x
    obtain ⟨kv, ks, vs, r, hk, hks, hvs, hr, hps⟩ :=
      writeMapEntries_cons_ok _ _ _ _ _ _ hok
    obtain ⟨r', hr', hpr⟩ := ih r hr
    subst hk hps
    refine ⟨(ks, vs) :: r', ?_, hpr.cons _⟩
    rw [writeMapEntries_cons, hks, bindOk, hvs, bindOk, hr', bindOk]
  | swap x y l =>
    intro ps hok
    obtain ⟨k1, v1⟩ := y
    obtain ⟨kv1, ks1, vs1, r1, hk1, hks1, hvs1, hr1, hps1⟩ :=
      writeMapEntries_cons_ok _ _ _ _ _ _ hok
    obtain ⟨k2, v2⟩ := x
    obtain ⟨kv2, ks2, vs2, r2, hk2, hks2, hvs2, hr2, hps2⟩ :=
      writeMapEntries_cons_ok _ _ _ _ _ _ hr1
    subst hk1 hk2 hps1 hps2
    refine ⟨(ks2, vs2) :: (ks1, vs1) :: r2, ?_, List.Perm.swap _ _ _⟩
    rw [writeMapEntries_cons, hks2, bindOk, hvs2, bindOk,
      writeMapEntries_cons, hks1, bindOk, hvs1, bindOk, hr2, bindOk,
      bindOk]
  | trans h12 h23 ih12 ih23 =>
    intro ps hok
    obtain ⟨ps2, h2, hp2⟩ := ih12 ps hok
    obtain ⟨ps3, h3, hp3⟩ := ih23 ps2 h2
    exact ⟨ps3, h3, hp2.trans hp3⟩

instance : IsTotal (List Char × List Char) (fun p q => pairLe p q = true) :=
  ⟨pairLe_total⟩

instance : IsTrans (List Char × List Char) (fun p q => pairLe p q = true) :=
  ⟨pairLe_trans⟩

instance : IsAntisymm (List Char × List Char) (fun p q => pairLe p q = true) :=
  ⟨pairLe_antisymm⟩

/-- The emitted entry list is sorted under the key/value order. -/
theorem sortEntries_sorted (ps : List (List Char × List Char)) :
    List.Sorted (fun p q => pairLe p q = true) (sortEntries ps) :=
  List.sorted_insertionSort _ ps

theorem sortEntries_perm (ps : List (List Char × List Char)) :
    (sortEntries ps).Perm ps :=
  List.perm_insertionSort _ ps

/-- Sorting is invariant under permutation of its input. -/
theorem sortEntries_eq_of_perm (ps ps' : List (List Char × List Char))
    (h : ps.Perm ps') : sortEntries ps = sortEntries ps' :=
  List.eq_of_perm_of_sorted
    ((sortEntries_perm ps).trans (h.trans (sortEntries_perm ps').symm))
    (sortEntries_sorted ps) (sortEntries_sorted ps')

/-! ## The claims -/

/-- C2: under try-mode, for every batch cast between JSON and a typed
column — in both directions — each row is evaluated independently: the
result is the per-row try outcome of that row alone (a data-dependent
failure, including one on an element nested inside a container of that
row, turns only that top-level row's result into null), every other row is
cast as if the failing row were absent (erasing a row erases exactly its
result); try-casting the JSON batch `["1a","2","3"]` to BIGINT yields
`[null, 2, 3]`, a per-element failure inside a map nulls only its row, and
in the column-to-JSON direction a null map key nulls only its own row
while the other rows still serialize. -/
theorem claim_C2_try_row_isolation (t tw : VType)
    (rows : List (Option (List Char))) (wrows : List (Option VValue))
    (ht : readableFromJson t = true) (htw : writableToJson tw = true) :
    castFromJson .tryMode t rows = .ok (rows.map (rowTry (readRow t))) ∧
    (∀ i : Nat, castFromJson .tryMode t (rows.eraseIdx i) =
      .ok ((rows.map (rowTry (readRow t))).eraseIdx i)) ∧
    castToJson .tryMode tw wrows = .ok (wrows.map (rowTry (writeRow tw))) ∧
    (∀ i : Nat, castToJson .tryMode tw (wrows.eraseIdx i) =
      .ok ((wrows.map (rowTry (writeRow tw))).eraseIdx i)) ∧
    castFromJson .tryMode .bigint [some ['1', 'a'], some ['2'], some ['3']] =
      .ok [none, some (.int 2), some (.int 3)] ∧
    castFromJson .tryMode (.mapT .bigint .bigint)
      [some ('{' :: '"' :: '1' :: 'a' :: '"' :: ':' :: '1' :: '}' :: []),
       some ('{' :: '"' :: '2' :: '"' :: ':' :: '3' :: '}' :: [])] =
      .ok [none, some (.map [(some (.int 2), some (.int 3))])] ∧
    castToJson .tryMode (.mapT .varchar .bigint)
      [some (.map [(some (.str ['g']), none), (none, some (.int (-6)))]),
       some (.map [(some (.str ['e']), none),
         (some (.str ['d']), some (.int (-4)))])] =
      .ok [none, some ['{', '"', 'd', '"', ':', '-', '4', ',',
        '"', 'e', '"', ':', 'n', 'u', 'l', 'l', '}']] := by
  refine ⟨?_, ?_, ?_, ?_, ?_, ?_, ?_⟩
  · simp [castFromJson, ht, castRows]
  · intro i
    simp [castFromJson, ht, castRows, eraseIdx_map]
  · simp [castToJson, htw, castRows]
  · intro i
    simp [castToJson, htw, castRows, eraseIdx_map]
  · rfl
  · rfl
  · rfl

theorem claim_C2_witness :
    castFromJson .tryMode .bigint [some ['1', 'a'], some ['2'], some ['3']] =
      .ok [none, some (.int 2), some (.int 3)] ∧
    castToJson .tryMode (.mapT .varchar .bigint)
      [some (.map [(some (.str ['g']), none), (none, some (.int (-6)))]),
       some (.map [(some (.str ['e']), none),
         (some (.str ['d']), some (.int (-4)))])] =
      .ok [none, some ['{', '"', 'd', '"', ':', '-', '4', ',',
        '"', 'e', '"', ':', 'n', 'u', 'l', 'l', '}']] :=
  ⟨(claim_C2_try_row_isolation .bigint .bigint [] []
      (by simp [readableFromJson]) (by simp [writableToJson])).2.2.2.2.1,
   (claim_C2_try_row_isolation .bigint .bigint [] []
      (by simp [readableFromJson]) (by simp [writableToJson])).2.2.2.2.2.2⟩

/-- C3: casting a dictionary- or constant-wrapped vector (with arbitrarily
stacked wrappers and null overlays) to JSON produces exactly the same
output, row for row, as casting the flat vector holding the same logical
per-row values; instantiated on a stacked dictionary-over-dictionary
vector with a null overlay. -/
theorem claim_C3_encoding_transparency (mode : CastMode) (t : VType)
    (v : EncVector) (flatRows : List (Option VValue))
    (h : logicalRows v = flatRows) :
    castToJsonEnc mode t v = castToJson mode t flatRows ∧
    castToJsonEnc .strict .bigint
      (.dict (some [true, false, false]) [2, 1, 0]
        (.dict none [0, 1, 2] (.flat [some (.int 1), some (.int 2), none]))) =
      castToJson .strict .bigint [none, some (.int 2), some (.int 1)] := by
  constructor
  · subst h
    unfold castToJsonEnc castToJson logicalRows
    by_cases hw : writableToJson t
    · rw [if_pos hw, if_pos hw]
      cases mode with
      | strict =>
        show strictMapIdx _ _ = castRows .strict _ _
        rw [strictMapIdx_comp (writeRow t) (resolve v) (List.range v.size)]
        rfl
      | tryMode =>
        show Except.ok _ = castRows .tryMode _ _
        simp [castRows, List.map_map]
    · rw [if_neg hw, if_neg hw]
  · rfl

theorem claim_C3_witness :
    castToJsonEnc .strict .bigint
      (.dict (some [true, false, false]) [2, 1, 0]
        (.dict none [0, 1, 2] (.flat [some (.int 1), some (.int 2), none]))) =
      castToJson .strict .bigint [none, some (.int 2), some (.int 1)] :=
  (claim_C3_encoding_transparency .strict .bigint (.flat []) [] rfl).2

/-- C9: empty and null containers stay distinct in both directions: an
empty array or map row serializes to `[]` / `{}` (a non-null output row),
a null container row produces a null output row, and reading the JSON
literal `null` into an array target yields a null row, not an empty array;
instantiated on `["red","blue"]` and `null` read into `ARRAY(VARCHAR)`. -/
theorem claim_C9_empty_vs_null (t kt vt : VType) :
    writeVal (.arrayT t) (some (.arr [])) = .ok ['[', ']'] ∧
    writeVal (.mapT kt vt) (some (.map [])) = .ok ['{', '}'] ∧
    writeRow (.arrayT t) none = .ok none ∧
    writeRow (.arrayT t) (some (.arr [])) ≠ .ok none ∧
    readValue (.arrayT t) .null = .ok none ∧
    readRow (.arrayT t) (some ['n', 'u', 'l', 'l']) = .ok none ∧
    readRow (.arrayT t) (some ['n', 'u', 'l', 'l']) ≠
      .ok (some (.arr [])) ∧
    castFromJson .strict (.arrayT .varchar)
      [some ('[' :: '"' :: 'r' :: 'e' :: 'd' :: '"' :: ',' :: '"' :: 'b' ::
        'l' :: 'u' :: 'e' :: '"' :: ']' :: []), some ['n', 'u', 'l', 'l']] =
      .ok [some (.arr [some (.str ['r', 'e', 'd']),
        some (.str ['b', 'l', 'u', 'e'])]), none] ∧
    castToJson .strict (.arrayT .varchar) [some (.arr []), none] =
      .ok [some ['[', ']'], none] := by
  refine ⟨rfl, rfl, rfl, ?_, rfl, rfl, ?_, rfl, rfl⟩
  · have h : writeRow (.arrayT t) (some (.arr [])) = .ok (some ['[', ']']) :=
      rfl
    rw [h]
    simp
  · have h : readRow (.arrayT t) (some ['n', 'u', 'l', 'l']) = .ok none :=
      rfl
    rw [h]
    simp

theorem claim_C9_witness :
    writeVal (.arrayT .varchar) (some (.arr [])) = .ok ['[', ']'] :=
  (claim_C9_empty_vs_null .varchar .varchar .varchar).1


/-! ## Facts about the float formatter -/

theorem isDigit_ne_E {c : Char} (h : c.isDigit = true) : c ≠ 'E' := by
  intro he
  subst he
  exact absurd h (by decide)

theorem stripTens_canon : ∀ m : Nat, ∀ e : Int, m ≠ 0 →
    (stripTens m e).1 % 10 ≠ 0 ∧
    ∃ k : Nat, (stripTens m e).2 = e + k ∧ (stripTens m e).1 * 10 ^ k = m := by
  intro m
  induction m using Nat.strong_induction_on with
  | _ m ih =>
    intro e hm
    rw [stripTens_eq, if_neg hm]
    by_cases h10 : m % 10 = 0
    · rw [if_pos h10]
      have hge : 10 ≤ m := by omega
      have hd : m / 10 < m := Nat.div_lt_self (by omega) (by norm_num)
      have hne : m / 10 ≠ 0 := by omega
      obtain ⟨hc, k, hk1, hk2⟩ := ih (m / 10) hd (e + 1) hne
      refine ⟨hc, k + 1, ?_, ?_⟩
      · rw [hk1]; omega
      · rw [pow_succ, ← mul_assoc, hk2]; omega
    · rw [if_neg h10]
      exact ⟨h10, 0, by simp, by simp⟩

/-- The formatter chooses scientific notation (an `E` appears in the text)
exactly when the decimal exponent is outside `[-3, 7)`. -/
theorem formatFinMag_E (m : Nat) (e : Int) (hm : m ≠ 0) :
    'E' ∈ formatFinMag m e ↔ ¬(-3 ≤ decExp m e ∧ decExp m e < 7) := by
  rw [formatFinMag, if_neg hm]
  by_cases hc : -3 ≤ decExp m e ∧ decExp m e < 7
  · refine iff_of_false ?_ (not_not_intro hc)
    rw [if_pos hc]
    intro hmem
    by_cases he : 0 ≤ e
    · rw [if_pos he] at hmem
      rcases List.mem_append.1 hmem with h1 | h2
      · rcases List.mem_append.1 h1 with h3 | h4
        · exact isDigit_ne_E (natDecDigits_isDigit m _ h3) rfl
        · exact absurd (List.eq_of_mem_replicate h4) (by decide)
      · exact absurd h2 (by decide)
    · rw [if_neg he] at hmem
      by_cases hp : (0 : Int) < (natDecDigits m).length + e
      · rw [if_pos hp] at hmem
        rcases List.mem_append.1 hmem with h1 | h2
        · exact isDigit_ne_E
            (natDecDigits_isDigit m _ (List.take_subset _ _ h1)) rfl
        · rcases List.mem_cons.1 h2 with h3 | h4
          · exact absurd h3 (by decide)
          · exact isDigit_ne_E
              (natDecDigits_isDigit m _ (List.drop_subset _ _ h4)) rfl
      · rw [if_neg hp] at hmem
        rcases List.mem_cons.1 hmem with h1 | h2
        · exact absurd h1 (by decide)
        · rcases List.mem_cons.1 h2 with h3 | h4
          · exact absurd h3 (by decide)
          · rcases List.mem_append.1 h4 with h5 | h6
            · exact absurd (List.eq_of_mem_replicate h5) (by decide)
            · exact isDigit_ne_E (natDecDigits_isDigit m _ h6) rfl
  · refine iff_of_true ?_ hc
    rw [if_neg hc]
    cases hds : natDecDigits m with
    | nil => exact absurd hds (natDecDigits_ne_nil m)
    | cons h t =>
      simp


/-- C5: the double/float formatter emits the canonical (shortest
round-tripping) decimal: the significand is stripped of trailing zeros
while preserving the value, plain notation is chosen exactly when the
decimal exponent lies in `[-3, 7)` (an `E` appears in the text otherwise),
`-0.0` keeps its sign, `NaN`/`-NaN` render as `NaN`, infinities render as
the unquoted `Infinity`/`-Infinity`, `10000000.0` renders as `1.0E7` and
`12345.0` as `12345.0`. -/
theorem claim_C5_float_formatting (m : Nat) (e : Int) (hm : m ≠ 0) :
    ('E' ∈ formatFinMag m e ↔ ¬(-3 ≤ decExp m e ∧ decExp m e < 7)) ∧
    (stripTens m e).1 % 10 ≠ 0 ∧
    (∃ k : Nat, (stripTens m e).2 = e + k ∧ (stripTens m e).1 * 10 ^ k = m) ∧
    (∀ neg m0 e0, formatFloat (mkFloat neg m0 e0) =
      formatFloat (.fin neg (stripTens m0 e0).1 (stripTens m0 e0).2)) ∧
    formatFloat (.fin true 0 0) = ['-', '0', '.', '0'] ∧
    formatFloat (.nan false) = ['N', 'a', 'N'] ∧
    formatFloat (.nan true) = ['N', 'a', 'N'] ∧
    formatFloat (.inf false) = ['I', 'n', 'f', 'i', 'n', 'i', 't', 'y'] ∧
    formatFloat (.inf true) =
      ['-', 'I', 'n', 'f', 'i', 'n', 'i', 't', 'y'] ∧
    formatFloat (.fin false 1 7) = ['1', '.', '0', 'E', '7'] ∧
    formatFloat (.fin false 12345 0) = ['1', '2', '3', '4', '5', '.', '0'] := by
  obtain ⟨hcanon, hval⟩ := stripTens_canon m e hm
  exact ⟨formatFinMag_E m e hm, hcanon, hval,
    fun neg m0 e0 => rfl, rfl, rfl, rfl, rfl, rfl, rfl, rfl⟩

theorem claim_C5_witness :
    (5 : Nat) ≠ 0 ∧
    ('E' ∈ formatFinMag 5 0 ↔ ¬(-3 ≤ decExp 5 0 ∧ decExp 5 0 < 7)) ∧
    (stripTens 5 0).1 % 10 ≠ 0 :=
  ⟨by decide, (claim_C5_float_formatting 5 0 (by decide)).1,
    (claim_C5_float_formatting 5 0 (by decide)).2.1⟩


/-! ## Facts about integer truncation -/

theorem truncDec_frac (neg : Bool) (m k : Nat) :
    (truncDec neg m (-(k + 1 : Int))).natAbs = m / 10 ^ (k + 1) := by
  have hne : ¬ (0 : Int) ≤ -(k + 1 : Int) := by omega
  have ht : (-(-(k + 1 : Int))).toNat = k + 1 := by omega
  simp only [truncDec, if_neg hne, ht]
  cases neg with
  | true => rw [if_pos rfl, Int.natAbs_neg, Int.natAbs_ofNat]
  | false => rw [if_neg (by decide), Int.natAbs_ofNat]

theorem truncDec_exact (neg : Bool) (m : Nat) (e : Int) (he : 0 ≤ e) :
    (truncDec neg m e).natAbs = m * 10 ^ e.toNat := by
  simp only [truncDec, if_pos he]
  cases neg with
  | true => rw [if_pos rfl, Int.natAbs_neg, Int.natAbs_ofNat]
  | false => rw [if_neg (by decide), Int.natAbs_ofNat]

theorem truncDec_sign (m : Nat) (e : Int) :
    truncDec true m e = -(truncDec false m e) := rfl


/-- C6: for every cast from JSON to an integer target, booleans map to 1/0
and null to a null row; a JSON number is truncated toward zero (the
truncated magnitude is the floor of `m / 10^k` for a fractional exponent,
the exact scaled value otherwise, with the sign reapplied) and then
range-checked: a successful read returns exactly the truncated value and
it fits the width, a value outside the target width fails with
`NumericOverflow` (e.g. JSON `128` to the 8-bit target), an integer
literal beyond the 64-bit parse range fails with `NumberParseError`, and
any other JSON kind — strings (including the quoted sentinel
`"Infinity"`), arrays, objects — fails with `TypeMismatch`. -/
theorem claim_C6_json_to_integer (w : Nat) (n : JNum) (v : Int) (neg : Bool)
    (m : Nat) (s : List Char) (xs : List JsonValue)
    (ofs : List (List Char × JsonValue)) :
    readInt w (.bool true) = .ok (some (.int 1)) ∧
    readInt w (.bool false) = .ok (some (.int 0)) ∧
    readInt w .null = .ok none ∧
    (∀ k : Nat, (truncDec neg m (-(k + 1 : Int))).natAbs * 10 ^ (k + 1) ≤ m ∧
      m < ((truncDec neg m (-(k + 1 : Int))).natAbs + 1) * 10 ^ (k + 1)) ∧
    (∀ e : Int, 0 ≤ e → (truncDec neg m e).natAbs = m * 10 ^ e.toNat) ∧
    (∀ e : Int, truncDec true m e = -(truncDec false m e)) ∧
    (readInt w (.num n) = .ok (some (.int v)) →
      v = truncDec n.neg n.m n.e ∧ fitsWidth w v = true) ∧
    (n.dbl = false → fitsWidth 64 (truncDec n.neg n.m n.e) = false →
      readInt w (.num n) = .error .NumberParseError) ∧
    (n.dbl = true → fitsWidth w (truncDec n.neg n.m n.e) = false →
      readInt w (.num n) = .error .NumericOverflow) ∧
    (n.dbl = false → fitsWidth 64 (truncDec n.neg n.m n.e) = true →
      fitsWidth w (truncDec n.neg n.m n.e) = false →
      readInt w (.num n) = .error .NumericOverflow) ∧
    readInt w (.str s) = .error .TypeMismatch ∧
    readInt w (.arr xs) = .error .TypeMismatch ∧
    readInt w (.obj ofs) = .error .TypeMismatch ∧
    readValue .tinyint (.str ['I', 'n', 'f', 'i', 'n', 'i', 't', 'y']) =
      .error .TypeMismatch ∧
    castFromJson .strict .tinyint [some ['1', '2', '8']] =
      .error .NumericOverflow := by
  refine ⟨rfl, rfl, rfl, ?_, ?_, fun e => truncDec_sign m e, ?_, ?_, ?_, ?_,
    rfl, rfl, rfl, rfl, rfl⟩
  · intro k
    rw [truncDec_frac]
    have hd : 0 < 10 ^ (k + 1) := pow_pos (by norm_num) _
    constructor
    · exact Nat.div_mul_le_self m _
    · have h1 := Nat.div_add_mod m (10 ^ (k + 1))
      have h2 := Nat.mod_lt m hd
      calc m = 10 ^ (k + 1) * (m / 10 ^ (k + 1)) + m % 10 ^ (k + 1) :=
          h1.symm
        _ < (m / 10 ^ (k + 1) + 1) * 10 ^ (k + 1) := by
          rw [Nat.add_mul, Nat.one_mul, Nat.mul_comm]
          omega
  · intro e he
    exact truncDec_exact neg m e he
  · intro hok
    simp only [readInt] at hok
    by_cases hd : n.dbl = true
    · rw [if_pos hd] at hok
      by_cases hf : fitsWidth w (truncDec n.neg n.m n.e) = true
      · rw [if_pos hf] at hok
        cases hok
        exact ⟨rfl, hf⟩
      · rw [if_neg hf] at hok
        cases hok
    · rw [if_neg hd] at hok
      by_cases h64 : fitsWidth 64 (truncDec n.neg n.m n.e) = true
      · rw [if_pos h64] at hok
        by_cases hf : fitsWidth w (truncDec n.neg n.m n.e) = true
        · rw [if_pos hf] at hok
          cases hok
          exact ⟨rfl, hf⟩
        · rw [if_neg hf] at hok
          cases hok
      · rw [if_neg h64] at hok
        cases hok
  · intro hd h64
    simp only [readInt]
    rw [if_neg (by rw [hd]; exact Bool.false_ne_true),
      if_neg (by rw [h64]; exact Bool.false_ne_true)]
  · intro hd hf
    simp only [readInt]
    rw [if_pos hd, if_neg (by rw [hf]; exact Bool.false_ne_true)]
  · intro hd h64 hf
    simp only [readInt]
    rw [if_neg (by rw [hd]; exact Bool.false_ne_true), if_pos h64,
      if_neg (by rw [hf]; exact Bool.false_ne_true)]

theorem claim_C6_witness :
    (12 : Int) = truncDec false 12 0 ∧ fitsWidth 8 (12 : Int) = true :=
  (claim_C6_json_to_integer 8 ⟨false, 12, 0, false⟩ 12 false 12 [] []
    []).2.2.2.2.2.2.1 rfl


/-! ## Facts about object-field lookup -/

theorem find?_eq_head?_filter (p : α → Bool) : ∀ l : List α,
    l.find? p = (l.filter p).head? := by
  intro l
  induction l with
  | nil => rfl
  | cons x xs ih =>
    by_cases hp : p x
    · rw [List.find?_cons_of_pos _ hp, List.filter_cons_of_pos hp]
      rfl
    · rw [List.find?_cons_of_neg _ (by simp [hp]),
        List.filter_cons_of_neg (by simp [hp]), ih]

/-- `lookupLast` returns the value of the last matching field. -/
theorem lookupLast_filter (nm : List Char)
    (ofs : List (List Char × JsonValue)) :
    lookupLast nm ofs =
      ((ofs.filter fun p => decide (p.1 = nm)).getLast?).map (·.2) := by
  rw [lookupLast, find?_eq_head?_filter, List.filter_reverse,
    List.head?_reverse]

/-- Fields whose key differs do not affect the lookup. -/
theorem lookupLast_skip (nm k : List Char) (v : JsonValue)
    (ofs : List (List Char × JsonValue)) (h : ¬ k = nm) :
    lookupLast nm ((k, v) :: ofs) = lookupLast nm ofs := by
  rw [lookupLast, lookupLast, List.reverse_cons, List.find?_append]
  have hone : List.find? (fun f => decide (f.1 = nm)) [(k, v)] = none := by
    simp [h]
  rw [hone, Option.or_none]


/-! ## Round-trip glue: parsing rendered scalars -/

theorem natDecDigits_bounds (n : Nat) : ∀ c ∈ natDecDigits n,
    48 ≤ c.toNat ∧ c.toNat ≤ 57 := by
  induction n using Nat.strong_induction_on with
  | _ n ih =>
    rw [natDecDigits_eq]
    split
    · rename_i h
      intro c hc
      simp at hc
      subst hc
      rw [digitChar_toNat h]
      omega
    · rename_i h
      intro c hc
      simp at hc
      rcases hc with hc | hc
      · exact ih (n / 10) (Nat.div_lt_self (by omega) (by norm_num)) c hc
      · subst hc
        have hm : n % 10 < 10 := Nat.mod_lt _ (by norm_num)
        rw [digitChar_toNat hm]
        omega

theorem ws_false_of_bounds {c : Char} (h48 : 48 ≤ c.toNat)
    (h57 : c.toNat ≤ 57) : isWsChar c = false := by
  simp only [isWsChar, Bool.or_eq_false_iff, beq_eq_false_iff_ne, ne_eq]
  omega

theorem skipWs_cons_noWs (c : Char) (l : List Char)
    (h : isWsChar c = false) : skipWs (c :: l) = c :: l := by
  rw [skipWs, if_neg (by rw [h]; exact Bool.false_ne_true)]

/-- A complete digit run parses back to its value with nothing left. -/
theorem parseNumAfterSign_digits (n : Nat) :
    parseNumAfterSign (natDecDigits n) = some ((n, 0, false), []) := by
  have hpd : parseDigits 0 0 (natDecDigits n) = (n, digitsLen n, []) := by
    have h := parseDigits_complete n [] (fun c l hcl => by cases hcl)
    rwa [List.append_nil] at h
  have hdh : isDigitHead (natDecDigits n) = true := by
    cases hnd : natDecDigits n with
    | nil => exact absurd hnd (natDecDigits_ne_nil n)
    | cons d rest =>
      have : d.isDigit = true :=
        natDecDigits_isDigit n d (by rw [hnd]; exact List.mem_cons_self _ _)
      rw [isDigitHead, this]
  rw [parseNumAfterSign, if_pos hdh]
  simp only [hpd]
  rfl

theorem parseNumber_digits (n : Nat) :
    parseNumber (natDecDigits n) = some (⟨false, n, 0, false⟩, []) := by
  obtain ⟨d, rest, hd⟩ : ∃ d rest, natDecDigits n = d :: rest := by
    cases hnd : natDecDigits n with
    | nil => exact absurd hnd (natDecDigits_ne_nil n)
    | cons d rest => exact ⟨d, rest, rfl⟩
  have hb : 48 ≤ d.toNat ∧ d.toNat ≤ 57 :=
    natDecDigits_bounds n d (by rw [hd]; exact List.mem_cons_self _ _)
  have hneg : ¬ d = '-' := by
    intro he
    subst he
    exact absurd hb.1 (by decide)
  rw [hd, parseNumber]
  rw [if_neg hneg, ← hd, parseNumAfterSign_digits]
  rfl

theorem parseNumber_negDigits (n : Nat) :
    parseNumber ('-' :: natDecDigits n) =
      some (⟨true, n, 0, false⟩, []) := by
  rw [parseNumber, if_pos rfl, parseNumAfterSign_digits]
  rfl

/-- One complete value with no leading or trailing slack parses as a whole
document. -/
theorem parseJson_of_value (c : Char) (rest : List Char) (v : JsonValue)
    (hnw : isWsChar c = false)
    (h : parseValue ((c :: rest).length + 1) (c :: rest) = some (v, [])) :
    parseJson (c :: rest) = .ok v := by
  have hsw : skipWs (c :: rest) = c :: rest := skipWs_cons_noWs c rest hnw
  simp only [parseJson, hsw, h]
  rfl


theorem parseJson_digits (n : Nat) :
    parseJson (natDecDigits n) = .ok (.num ⟨false, n, 0, false⟩) := by
  obtain ⟨d, rest, hd⟩ : ∃ d rest, natDecDigits n = d :: rest := by
    cases hnd : natDecDigits n with
    | nil => exact absurd hnd (natDecDigits_ne_nil n)
    | cons d rest => exact ⟨d, rest, rfl⟩
  have hb : 48 ≤ d.toNat ∧ d.toNat ≤ 57 :=
    natDecDigits_bounds n d (by rw [hd]; exact List.mem_cons_self _ _)
  have hv : parseValue ((d :: rest).length + 1) (d :: rest) =
      some (.num ⟨false, n, 0, false⟩, []) := by
    have h1 : ¬ d = 'n' := by
      intro he; subst he; exact absurd hb.2 (by decide)
    have h2 : ¬ d = 't' := by
      intro he; subst he; exact absurd hb.2 (by decide)
    have h3 : ¬ d = 'f' := by
      intro he; subst he; exact absurd hb.2 (by decide)
    have h4 : ¬ d = '"' := by
      intro he; subst he; exact absurd hb.1 (by decide)
    have h5 : ¬ d = '[' := by
      intro he; subst he; exact absurd hb.2 (by decide)
    have h6 : ¬ d = '{' := by
      intro he; subst he; exact absurd hb.2 (by decide)
    rw [show (d :: rest).length + 1 = rest.length + 1 + 1 from by simp]
    rw [parseValue_num d h1 h2 h3 h4 h5 h6]
    rw [← hd, parseNumber_digits]
    rfl
  rw [hd]
  exact parseJson_of_value d rest _ (ws_false_of_bounds hb.1 hb.2) hv

theorem parseJson_negDigits (n : Nat) :
    parseJson ('-' :: natDecDigits n) = .ok (.num ⟨true, n, 0, false⟩) := by
  have hv : parseValue (('-' :: natDecDigits n).length + 1)
      ('-' :: natDecDigits n) = some (.num ⟨true, n, 0, false⟩, []) := by
    rw [show ('-' :: natDecDigits n).length + 1 =
      (natDecDigits n).length + 1 + 1 from by simp]
    rw [parseValue_num '-' (by decide) (by decide) (by decide) (by decide)
      (by decide) (by decide)]
    rw [parseNumber_negDigits]
    rfl
  exact parseJson_of_value '-' _ _ (by decide) hv

theorem truncDec_zero (neg : Bool) (n : Nat) :
    truncDec neg n 0 = if neg then -(n : Int) else (n : Int) := by
  simp [truncDec]

theorem fitsWidth_mono (w w' : Nat) (hww : w ≤ w') (i : Int)
    (h : fitsWidth w i = true) : fitsWidth w' i = true := by
  simp only [fitsWidth, decide_eq_true_eq] at h ⊢
  have hp : (2 : Int) ^ (w - 1) ≤ 2 ^ (w' - 1) :=
    pow_le_pow_right₀ (by norm_num) (by omega)
  omega

theorem readInt_num_int (w : Nat) (neg : Bool) (n : Nat) (i : Int)
    (ht : truncDec neg n 0 = i)
    (h64 : fitsWidth 64 i = true) (hf : fitsWidth w i = true) :
    readInt w (.num ⟨neg, n, 0, false⟩) = .ok (some (.int i)) := by
  simp only [readInt, ht]
  rw [if_neg Bool.false_ne_true, if_pos h64, if_pos hf]

/-- Rendered in-range integers parse and read back to themselves. -/
theorem readRow_int (t : VType) (w : Nat)
    (hT : ∀ jv : JsonValue, readValue t jv = readInt w jv)
    (hw : w ≤ 64) (i : Int) (hf : fitsWidth w i = true) :
    readRow t (some (intDecChars i)) = .ok (some (.int i)) := by
  have h64 : fitsWidth 64 i = true := fitsWidth_mono w 64 hw i hf
  have hrr : readRow t (some (intDecChars i)) =
      (parseJson (intDecChars i)).bind fun jv => readValue t jv := rfl
  by_cases hneg : i < 0
  · have hic : intDecChars i = '-' :: natDecDigits (-i).toNat := by
      rw [intDecChars, if_pos hneg]
    rw [hrr, hic, parseJson_negDigits, bindOk, hT]
    exact readInt_num_int w true (-i).toNat i
      (by rw [truncDec_zero, if_pos rfl]; omega) h64 hf
  · have hic : intDecChars i = natDecDigits i.toNat := by
      rw [intDecChars, if_neg hneg]
    rw [hrr, hic, parseJson_digits, bindOk, hT]
    exact readInt_num_int w false i.toNat i
      (by rw [truncDec_zero, if_neg (by decide)]; omega) h64 hf

/-- Rendered strings parse and unescape back to themselves. -/
theorem readRow_varchar (s : List Char) :
    readRow .varchar (some ('"' :: (escapeChars s ++ ['"']))) =
      .ok (some (.str s)) := by
  have hv : parseValue (('"' :: (escapeChars s ++ ['"'])).length + 1)
      ('"' :: (escapeChars s ++ ['"'])) = some (.str s, []) := by
    rw [show ('"' :: (escapeChars s ++ ['"'])).length + 1 =
      (escapeChars s ++ ['"']).length + 1 + 1 from by simp]
    rw [parseValue_str]
    rw [show escapeChars s ++ ['"'] = escapeChars s ++ '"' :: [] from rfl]
    rw [parseStrBody_escapeChars]
    rfl
  have hrr : readRow .varchar (some ('"' :: (escapeChars s ++ ['"']))) =
      (parseJson ('"' :: (escapeChars s ++ ['"']))).bind
        fun jv => readValue .varchar jv := rfl
  rw [hrr, parseJson_of_value _ _ _ (by decide) hv, bindOk]
  rfl


/-- C4: for every map row cast to JSON, the serialized object lists its
entries sorted ascending by the byte-lexicographic order of each key's
canonical text, regardless of the map's storage order: a permutation of
the stored entries yields the identical serialized text, the emitted entry
sequence is always sorted by key bytes, and the `MAP(DOUBLE,BIGINT)` map
`{4.4:null, 3.3:2, 10.0:9, -100000000.5:99}` serializes to
`{"-1.000000005E8":99,"10.0":9,"3.3":2,"4.4":null}`. -/
theorem claim_C4_map_key_ordering (kt vt : VType)
    (entries entries' : List (Option VValue × Option VValue)) (s : List Char)
    (hperm : entries.Perm entries')
    (hok : writeVal (.mapT kt vt) (some (.map entries)) = .ok s) :
    writeVal (.mapT kt vt) (some (.map entries')) = .ok s ∧
    (∀ ps : List (List Char × List Char),
      List.Pairwise (fun p q => bytesLe p.1 q.1 = true) (sortEntries ps)) ∧
    writeVal (.mapT .double .bigint)
      (some (.map [(some (.flt (.fin false 44 (-1))), none),
        (some (.flt (.fin false 33 (-1))), some (.int 2)),
        (some (.flt (.fin false 1 1)), some (.int 9)),
        (some (.flt (.fin true 1000000005 (-1))), some (.int 99))])) =
      .ok ['{', '"', '-', '1', '.', '0', '0', '0', '0', '0', '0', '0', '0', '5', 'E', '8', '"', ':', '9', '9', ',', '"', '1', '0', '.', '0', '"', ':', '9', ',', '"', '3', '.', '3', '"', ':', '2', ',', '"', '4', '.', '4', '"', ':', 'n', 'u', 'l', 'l', '}'] := by
  refine ⟨?_, ?_, rfl⟩
  · rw [writeVal_map] at hok ⊢
    cases hps : writeMapEntries kt vt entries with
    | error e => rw [hps] at hok; cases hok
    | ok ps =>
      rw [hps] at hok
      obtain ⟨ps', hps', hpp⟩ :=
        writeMapEntries_perm kt vt entries entries' hperm ps hps
      rw [hps']
      simp only [Except.map] at hok ⊢
      rw [show sortEntries ps' = sortEntries ps from
        (sortEntries_eq_of_perm ps ps' hpp).symm]
      exact hok
  · intro ps
    exact List.Pairwise.imp (fun h => pairLe_key _ _ h) (sortEntries_sorted ps)

theorem claim_C4_witness :
    writeVal (.mapT .bigint .bigint)
      (some (.map [(some (.int 1), none), (some (.int 2), some (.int 3))])) =
      .ok ['{', '"', '1', '"', ':', 'n', 'u', 'l', 'l', ',', '"', '2', '"', ':', '3', '}'] :=
  (claim_C4_map_key_ordering .bigint .bigint
    [(some (.int 2), some (.int 3)), (some (.int 1), none)]
    [(some (.int 1), none), (some (.int 2), some (.int 3))] ['{', '"', '1', '"', ':', 'n', 'u', 'l', 'l', ',', '"', '2', '"', ':', '3', '}']
    (List.Perm.swap _ _ _) rfl).1


/-- C7: for every cast from a JSON object to a row target, fields are
matched by exact name with a duplicated key resolving to its last
occurrence (`lookupLast` is the last element of the name-filtered field
list), JSON fields with no matching row field are ignored by the lookup,
fields absent from the JSON become null; a JSON array source is matched
strictly positionally and a length mismatch fails with `TypeMismatch`;
instantiated on `{"c0":123,"c2":true,"c0":456}` giving c0=456, c1=null,
c2=true, and on `[1,true]` / `[1]` against a two-field row. -/
theorem claim_C7_json_to_row (nm k : List Char) (v : JsonValue) (ft : VType)
    (fs : List (List Char × VType)) (ofs : List (List Char × JsonValue))
    (xs : List JsonValue) (f : Nat) :
    lookupLast nm ofs =
      ((ofs.filter fun p => decide (p.1 = nm)).getLast?).map (·.2) ∧
    (¬ k = nm → lookupLast nm ((k, v) :: ofs) = lookupLast nm ofs) ∧
    (lookupLast nm ofs = none →
      readRowNamedF (f + 1) ((nm, ft) :: fs) ofs =
        (readRowNamedF f fs ofs).map fun r => none :: r) ∧
    (∀ jv, lookupLast nm ofs = some jv →
      readRowNamedF (f + 1) ((nm, ft) :: fs) ofs =
        (readValueF f ft jv).bind fun w =>
          (readRowNamedF f fs ofs).map fun r => w :: r) ∧
    (xs.length ≠ fs.length →
      readValue (.rowT fs) (.arr xs) = .error .TypeMismatch) ∧
    castFromJson .strict (.rowT [(['c', '0'], .bigint),
      (['c', '1'], .varchar), (['c', '2'], .boolean)]) [some ['{', '\"', 'c', '0', '\"', ':', '1', '2', '3', ',', '\"', 'c', '2', '\"', ':', 't', 'r', 'u', 'e', ',', '\"', 'c', '0', '\"', ':', '4', '5', '6', '}']] =
      .ok [some (.row [some (.int 456), none, some (.bool true)])] ∧
    castFromJson .strict (.rowT [(['a'], .bigint), (['b'], .boolean)])
      [some ['[', '1', ',', 't', 'r', 'u', 'e', ']']] = .ok [some (.row [some (.int 1), some (.bool true)])] ∧
    castFromJson .strict (.rowT [(['a'], .bigint), (['b'], .boolean)])
      [some ['[', '1', ']']] = .error .TypeMismatch := by
  refine ⟨lookupLast_filter nm ofs, lookupLast_skip nm k v ofs, ?_, ?_, ?_,
    rfl, rfl, rfl⟩
  · intro h
    show (match lookupLast nm ofs with
      | some jv => readValueF f ft jv
      | none => .ok none).bind _ = _
    rw [h, bindOk]
  · intro jv h
    show (match lookupLast nm ofs with
      | some jv => readValueF f ft jv
      | none => .ok none).bind _ = _
    rw [h]
  · intro h
    simp only [readValue, readValueF]
    rw [if_neg h]

theorem claim_C7_witness :
    lookupLast ['a'] [(['a'], .null), (['b'], .bool true), (['a'], .num ⟨false, 7, 0, false⟩)] =
      (([(['a'], JsonValue.null), (['b'], .bool true),
        (['a'], .num ⟨false, 7, 0, false⟩)].filter
          fun p => decide (p.1 = ['a'])).getLast?).map (·.2) ∧
    readValue (.rowT [(['a'], .bigint), (['b'], .boolean)]) (.arr [.null]) =
      .error .TypeMismatch :=
  ⟨(claim_C7_json_to_row ['a'] ['b'] .null .bigint []
      [(['a'], .null), (['b'], .bool true), (['a'], .num ⟨false, 7, 0, false⟩)]
      [] 0).1,
   (claim_C7_json_to_row ['a'] ['b'] .null .bigint
      [(['a'], .bigint), (['b'], .boolean)] [] [.null] 0).2.2.2.2.1
     (by decide)⟩


/-- C8 (counterexample to the spec's claim): a JSON number or boolean cast
to `VARCHAR` does not fail with `TypeMismatch` — it succeeds and yields the
literal text, as the tests require (`"123"` reads as the string `123`). -/
theorem claim_C8_counterexample :
    castFromJson .strict .varchar [some ['1', '2', '3']] =
      .ok [some (.str ['1', '2', '3'])] ∧
    readVarchar (.num ⟨false, 123, 0, false⟩) ≠ .error .TypeMismatch ∧
    readVarchar (.bool true) = .ok (some (.str ['t', 'r', 'u', 'e'])) := by
  refine ⟨rfl, ?_, rfl⟩
  intro h
  exact Except.noConfusion h

/-- C8 (amended): for a cast from JSON to the string target `VARCHAR`, a
JSON string literal is accepted (unescaped) as-is, the JSON literal `null`
yields a null row, a JSON number or boolean converts to its literal text,
and container kinds (array, object) fail with `TypeMismatch`. -/
theorem claim_C8_amended (s : List Char) (b : Bool) (n : JNum)
    (xs : List JsonValue) (ofs : List (List Char × JsonValue)) :
    readValue .varchar (.str s) = .ok (some (.str s)) ∧
    readValue .varchar .null = .ok none ∧
    readValue .varchar (.bool b) = .ok (some (.str
      (if b then ['t', 'r', 'u', 'e'] else ['f', 'a', 'l', 's', 'e']))) ∧
    readValue .varchar (.num n) = .ok (some (.str (renderNumText n))) ∧
    readValue .varchar (.arr xs) = .error .TypeMismatch ∧
    readValue .varchar (.obj ofs) = .error .TypeMismatch ∧
    castFromJson .strict .varchar [some ['"', 'a', '"'],
      some ['1', '2', '3'], some ['t', 'r', 'u', 'e'],
      some ['n', 'u', 'l', 'l']] =
      .ok [some (.str ['a']), some (.str ['1', '2', '3']),
        some (.str ['t', 'r', 'u', 'e']), none] :=
  ⟨rfl, rfl, rfl, rfl, rfl, rfl, rfl⟩


/-- C10: in strict mode the floating targets are range-checked like the
integer ones: a JSON number whose decimal magnitude exceeds the finite
32-bit float range fails with `NumericOverflow` when cast to `REAL` (and
likewise for `DOUBLE` past its own range), while an in-range number
succeeds with the canonical float value; the literal `1.7E+307` (and its
negation) overflows `REAL` but casts to `DOUBLE` successfully. -/
theorem claim_C10_real_overflow (n : JNum) :
    (decMagGt n.m n.e maxFloatMag = true →
      readValue .real (.num n) = .error .NumericOverflow) ∧
    (decMagGt n.m n.e maxDoubleMag = true →
      readValue .double (.num n) = .error .NumericOverflow) ∧
    (decMagGt n.m n.e maxFloatMag = false →
      readValue .real (.num n) = .ok (some (.flt (mkFloat n.neg n.m n.e)))) ∧
    castFromJson .strict .real [some ['1', '.', '7', 'E', '+', '3', '0', '7']] = .error .NumericOverflow ∧
    castFromJson .strict .real [some ['-', '1', '.', '7', 'E', '+', '3', '0', '7']] = .error .NumericOverflow ∧
    castFromJson .strict .double [some ['1', '.', '7', 'E', '+', '3', '0', '7']] =
      .ok [some (.flt (.fin false 17 306))] ∧
    castFromJson .strict .double [some ['-', '1', '.', '7', 'E', '+', '3', '0', '7']] =
      .ok [some (.flt (.fin true 17 306))] := by
  refine ⟨?_, ?_, ?_, rfl, rfl, rfl, rfl⟩
  · intro h
    show (if decMagGt n.m n.e maxFloatMag = true
        then Except.error JsonErr.NumericOverflow
        else Except.ok (some (VValue.flt (mkFloat n.neg n.m n.e)))) =
      Except.error JsonErr.NumericOverflow
    rw [if_pos h]
  · intro h
    show (if decMagGt n.m n.e maxDoubleMag = true
        then Except.error JsonErr.NumericOverflow
        else Except.ok (some (VValue.flt (mkFloat n.neg n.m n.e)))) =
      Except.error JsonErr.NumericOverflow
    rw [if_pos h]
  · intro h
    show (if decMagGt n.m n.e maxFloatMag = true
        then Except.error JsonErr.NumericOverflow
        else Except.ok (some (VValue.flt (mkFloat n.neg n.m n.e)))) =
      Except.ok (some (VValue.flt (mkFloat n.neg n.m n.e)))
    rw [if_neg (by rw [h]; exact Bool.false_ne_true)]

theorem claim_C10_witness :
    readValue .real (.num ⟨false, 17, 306, true⟩) =
      .error .NumericOverflow :=
  (claim_C10_real_overflow ⟨false, 17, 306, true⟩).1 rfl


/-- C1 (counterexample to the spec's claim): the round trip does not hold
for every primitive type and value — a timestamp (or date) serializes to
JSON but casting JSON back to `TIMESTAMP` is rejected at plan time with
`UnsupportedCastType`, and a real infinity serializes to the unquoted
literal `Infinity`, which does not re-parse (`MalformedDocument`). -/
theorem claim_C1_counterexample :
    writableToJson .timestamp = true ∧
    readableFromJson .timestamp = false ∧
    readableFromJson .date = false ∧
    castToJson .strict .timestamp [some (.ts 0 0)] = .ok [some ['1', '9', '7', '0', '-', '0', '1', '-', '0', '1', 'T', '0', '0', ':', '0', '0', ':', '0', '0', '.', '0', '0', '0', '0', '0', '0', '0', '0', '0']] ∧
    castFromJson .strict .timestamp [some ['1', '9', '7', '0', '-', '0', '1', '-', '0', '1', 'T', '0', '0', ':', '0', '0', ':', '0', '0', '.', '0', '0', '0', '0', '0', '0', '0', '0', '0']] =
      .error .UnsupportedCastType ∧
    writeVal .real (some (.flt (.inf false))) = .ok ['I', 'n', 'f', 'i', 'n', 'i', 't', 'y'] ∧
    readRow .real (some ['I', 'n', 'f', 'i', 'n', 'i', 't', 'y']) = .error .MalformedDocument :=
  ⟨rfl, rfl, rfl, rfl, rfl, rfl, rfl⟩

/-- C1 (amended): for the primitive types that remain castable in both
directions the round trip does hold — every in-range integer of each
width, both booleans, every string, and representative double/real values
(a plain-notation double, a scientific-notation real, and negative zero)
read back from their serialized JSON text to the original value;
timestamps/dates (rejected when reading) and non-finite floats are the
exceptions recorded in the counterexample. -/
theorem claim_C1_amended (i : Int) (s : List Char) (b : Bool) :
    (fitsWidth 8 i = true →
      writeRow .tinyint (some (.int i)) = .ok (some (intDecChars i)) ∧
      readRow .tinyint (some (intDecChars i)) = .ok (some (.int i))) ∧
    (fitsWidth 16 i = true →
      writeRow .smallint (some (.int i)) = .ok (some (intDecChars i)) ∧
      readRow .smallint (some (intDecChars i)) = .ok (some (.int i))) ∧
    (fitsWidth 32 i = true →
      writeRow .integer (some (.int i)) = .ok (some (intDecChars i)) ∧
      readRow .integer (some (intDecChars i)) = .ok (some (.int i))) ∧
    (fitsWidth 64 i = true →
      writeRow .bigint (some (.int i)) = .ok (some (intDecChars i)) ∧
      readRow .bigint (some (intDecChars i)) = .ok (some (.int i))) ∧
    (writeRow .boolean (some (.bool b)) =
      .ok (some (if b then ['t', 'r', 'u', 'e'] else ['f', 'a', 'l', 's', 'e'])) ∧
     readRow .boolean (some (if b then ['t', 'r', 'u', 'e'] else ['f', 'a', 'l', 's', 'e'])) =
      .ok (some (.bool b))) ∧
    (writeRow .varchar (some (.str s)) =
      .ok (some ('"' :: (escapeChars s ++ ['"']))) ∧
     readRow .varchar (some ('"' :: (escapeChars s ++ ['"']))) =
      .ok (some (.str s))) ∧
    (writeRow .double (some (.flt (.fin false 12345 0))) =
      .ok (some ['1', '2', '3', '4', '5', '.', '0']) ∧
     readRow .double (some ['1', '2', '3', '4', '5', '.', '0']) = .ok (some (.flt (.fin false 12345 0)))) ∧
    (writeRow .real (some (.flt (.fin false 1 7))) = .ok (some ['1', '.', '0', 'E', '7']) ∧
     readRow .real (some ['1', '.', '0', 'E', '7']) = .ok (some (.flt (.fin false 1 7)))) ∧
    (writeRow .double (some (.flt (.fin true 0 0))) = .ok (some ['-', '0', '.', '0']) ∧
     readRow .double (some ['-', '0', '.', '0']) = .ok (some (.flt (.fin true 0 0)))) := by
  refine ⟨?_, ?_, ?_, ?_, ?_, ⟨rfl, readRow_varchar s⟩, ⟨rfl, rfl⟩,
    ⟨rfl, rfl⟩, ⟨rfl, rfl⟩⟩
  · intro hf
    exact ⟨rfl, readRow_int .tinyint 8 (fun jv => rfl) (by omega) i hf⟩
  · intro hf
    exact ⟨rfl, readRow_int .smallint 16 (fun jv => rfl) (by omega) i hf⟩
  · intro hf
    exact ⟨rfl, readRow_int .integer 32 (fun jv => rfl) (by omega) i hf⟩
  · intro hf
    exact ⟨rfl, readRow_int .bigint 64 (fun jv => rfl) (by omega) i hf⟩
  · cases b with
    | true => exact ⟨rfl, rfl⟩
    | false => exact ⟨rfl, rfl⟩

theorem claim_C1_witness :
    fitsWidth 8 (-5 : Int) = true ∧
    readRow .tinyint (some (intDecChars (-5))) = .ok (some (.int (-5))) :=
  ⟨by decide, ((claim_C1_amended (-5) [] false).1 (by decide)).2⟩

end JsonCast
